import Mathlib

/-!
Verification development for the primeqk online duel server
(`src/rules.py`, `src/main.py`).  The Python sources are shallowly
embedded: pure functions become Lean functions, the mutable `Room` and
`Player` objects become explicit record states, random choices become
explicit parameters, and Python exceptions become `Except`/outcome values.
-/

set_option maxHeartbeats 4000000
set_option maxRecDepth 100000
set_option exponentiation.threshold 100000

namespace PrimeQK

/-! ## rules.py -/

inductive DeckRule
  | DEFAULT
  | EVEN_HALVED
deriving DecidableEq, Repr

inductive PenaltyRule
  | ALWAYS_1
  | SAME_AS_PLAYED
deriving DecidableEq, Repr

structure RulePreset where
  key : String
  label : String
  deck_rule : DeckRule
  hand_size : Nat
  penalty_rule : PenaltyRule
deriving DecidableEq, Repr

/-- The `PRESETS` table of rules.py, as an association list (Python dict
with string keys, insertion order). -/
def PRESETS : List (String × RulePreset) :=
  [ ("std-5-1",  ⟨"std-5-1",  "標準: 5枚 / ペナ1",  DeckRule.DEFAULT,     5,  PenaltyRule.ALWAYS_1⟩),
    ("std-7-1",  ⟨"std-7-1",  "標準: 7枚 / ペナ1",  DeckRule.DEFAULT,     7,  PenaltyRule.ALWAYS_1⟩),
    ("std-11-n", ⟨"std-11-n", "標準: 11枚 / 同数", DeckRule.DEFAULT,     11, PenaltyRule.SAME_AS_PLAYED⟩),
    ("half-5-n", ⟨"half-5-n", "偶数半減: 5枚 / 同数", DeckRule.EVEN_HALVED, 5,  PenaltyRule.SAME_AS_PLAYED⟩) ]

/-- `PRESETS[k]`: Python dict lookup; `none` models a `KeyError`. -/
def preset_lookup (k : String) : Option RulePreset :=
  (PRESETS.find? (fun e => e.1 == k)).map (fun e => e.2)

/-- The room-id / preset-key pairs that `ROOM_CONFIG` in main.py is built
from (each entry evaluates `PRESETS[key]` at import time). -/
def ROOM_CONFIG_keys : List (String × String) :=
  [ ("room_1", "std-5-1"),
    ("room_2", "std-7-1"),
    ("room_3", "std-11-n"),
    ("room_4", "half-5-n"),
    ("room_5", "half-7-1") ]

/-- Building `ROOM_CONFIG` (and from it the `rooms` dict): every preset
lookup must succeed, otherwise the whole construction raises `KeyError`
(modelled by `none`). -/
def build_room_config : Option (List (String × RulePreset)) :=
  ROOM_CONFIG_keys.mapM (fun e => (preset_lookup e.2).map (fun r => (e.1, r)))

/-! ## main.py: the primality oracle `is_prime`

The Python function keeps the Miller-Rabin witnesses deterministic below
`2^64` and draws `k = 16` random witnesses above; the random draws are
modelled by the explicit `rnd` parameter (the list of drawn bases). -/

def _SMALL_PRIMES : List Nat := [2, 3, 5, 7, 11, 13, 17, 19, 23, 29, 31, 37]

/-- The small-prime loop of `is_prime`: `some true` / `some false` model the
early `return`s, `none` means the loop fell through. -/
def small_prime_scan (n : Nat) : List Nat → Option Bool
  | [] => none
  | p :: ps =>
    if n = p then some true
    else if n % p = 0 then some false
    else small_prime_scan n ps

/-- Trailing 2-adic valuation of `m` (the `s` with `m = d * 2^s`, `d` odd),
computed with fuel; called with fuel `m` which always suffices. -/
def two_val : Nat → Nat → Nat
  | 0, _ => 0
  | fuel + 1, m => if m % 2 = 0 ∧ m ≠ 0 then two_val fuel (m / 2) + 1 else 0

/-- Python `pow(a, d, n)`. -/
def pow_mod (a d n : Nat) : Nat := a ^ d % n

/-- The squaring loop inside `check(a)` (`for _ in range(s - 1)`). -/
def mr_loop : Nat → Nat → Nat → Bool
  | 0, _, _ => false
  | fuel + 1, x, n =>
    let x2 := x * x % n
    if x2 = n - 1 then true else mr_loop fuel x2 n

/-- The `check(a)` closure of `is_prime`. -/
def mr_check (n d s a : Nat) : Bool :=
  let x := pow_mod a d n
  if x = 1 ∨ x = n - 1 then true else mr_loop (s - 1) x n

/-- `is_prime(n)` of main.py; `rnd` supplies the `randrange` draws used only
in the `n ≥ 2^64` branch. -/
def is_prime (rnd : List Nat) (n : Nat) : Bool :=
  if n < 2 then false
  else
    match small_prime_scan n _SMALL_PRIMES with
    | some b => b
    | none =>
      let m := n - 1
      let s := two_val m m
      let d := m / 2 ^ s
      if n < 2 ^ 64 then
        _SMALL_PRIMES.all (fun a => mr_check n d s a)
      else
        rnd.all (fun a => mr_check n d s a)

/-! Reference trial division (spec side, §8 of the spec): divide by every
candidate `d` with `d * d ≤ n`. -/

def tdiv_loop : Nat → Nat → Nat → Bool
  | 0, _, _ => true
  | fuel + 1, d, n =>
    if d * d > n then true
    else if n % d = 0 then false
    else tdiv_loop fuel (d + 1) n

def trial_division (n : Nat) : Bool :=
  decide (2 ≤ n) && tdiv_loop n 2 n

/-! ## Cards and deck construction

`uuid4` card ids are modelled by distinct natural numbers; `random.shuffle`
becomes an explicit shuffle-function parameter (theorems that need it assume
the parameter permutes its input). -/

inductive Suit
  | S
  | H
  | D
  | C
  | X
deriving DecidableEq, Repr

structure Card where
  card_id : Nat
  suit : Suit
  rank : Nat
  is_joker : Bool
deriving DecidableEq, Repr

def suit_cards (s : Suit) (base : Nat) : List Card :=
  (List.range 13).map (fun i => ⟨base + i, s, i + 1, false⟩)

/-- The 54 cards built by `generate_deck` before its shuffle.  `uuid4` ids
are modelled as the 54 naturals starting at `fresh` (uuid uniqueness becomes
a freshness hypothesis where it matters). -/
def base_deck (fresh : Nat) : List Card :=
  suit_cards Suit.S fresh ++ suit_cards Suit.H (fresh + 13) ++ suit_cards Suit.D (fresh + 26) ++
    suit_cards Suit.C (fresh + 39) ++ [⟨fresh + 52, Suit.X, 0, true⟩, ⟨fresh + 53, Suit.X, 0, true⟩]

def generate_deck (fresh : Nat) (sh : List Card → List Card) : List Card :=
  sh (base_deck fresh)

/-- The removal predicate of `build_deck`'s EVEN_HALVED branch: even rank,
suit D or H, not a joker. -/
def even_halved_removed (c : Card) : Bool :=
  !c.is_joker && c.rank % 2 == 0 && (c.suit == Suit.D || c.suit == Suit.H)

def build_deck (fresh : Nat) (sh1 sh2 : List Card → List Card) (rule : RulePreset) : List Card :=
  let deck := generate_deck fresh sh1
  let deck :=
    if rule.deck_rule = DeckRule.EVEN_HALVED then
      deck.filter (fun c => !(even_halved_removed c))
    else deck
  sh2 deck

/-- The per-round body of `shuffle_and_deal`'s round-robin loop for two
players (each round pops one card for each hand). -/
def deal2 : Nat → List Card → (List Card × List Card) × List Card
  | 0, d => (([], []), d)
  | n + 1, d =>
    match d with
    | a :: b :: rest =>
      let x := deal2 n rest
      ((a :: x.1.1, b :: x.1.2), x.2)
    | _ => (([], []), d)

def shuffle_and_deal (sh : List Card → List Card) (deck0 : List Card) (hand_n : Nat) :
    (List Card × List Card) × List Card :=
  let deck := sh deck0
  let n := if deck.length < hand_n * 2 then (deck.length - deck.length % 2) / 2 else hand_n
  deal2 n deck

/-! ## Players and rooms -/

inductive PStatus
  | watching
  | waiting
deriving DecidableEq, Repr

structure Player where
  id : Nat
  name : String
  status : PStatus
  hand : List Card
deriving DecidableEq, Repr

inductive RState
  | waiting
  | playing
deriving DecidableEq, Repr

structure Room where
  rule : RulePreset
  players : List Player
  state : RState
  deck : List Card
  field : List Card
  reserve : List Card
  last_number : Option Int
  current_turn_id : Option Nat
  has_drawn : Bool
  reverse_order : Bool
deriving DecidableEq, Repr

def Room.getPlayer (room : Room) (pid : Nat) : Option Player :=
  room.players.find? (fun p => p.id == pid)

/-- Mutating the (unique, by room invariant) player object with this id. -/
def Room.modifyPlayer (room : Room) (pid : Nat) (f : Player → Player) : Room :=
  { room with players := room.players.map (fun p => if p.id = pid then f p else p) }

/-- `Player.sort_hand`: Python's stable sort by rank (insertion sort). -/
def insert_by_rank (c : Card) : List Card → List Card
  | [] => [c]
  | d :: ds => if c.rank < d.rank then c :: d :: ds else d :: insert_by_rank c ds

def sort_hand (hand : List Card) : List Card :=
  hand.foldr insert_by_rank []

/-- `Player.add_card`: append then re-sort. -/
def add_card (hand : List Card) (c : Card) : List Card :=
  sort_hand (hand ++ [c])

/-- `Player.has_cards`: every requested card present, with multiplicity. -/
def has_cards (hand : List Card) : List Card → Bool
  | [] => true
  | c :: cs => if hand.contains c then has_cards (hand.erase c) cs else false

/-- The `for c in played: player.remove_card(c)` loops. -/
def remove_cards_list (hand cards : List Card) : List Card :=
  cards.foldl (fun h c => h.erase c) hand

/-! ## Shared room logic -/

def check_win_condition (room : Room) : Option String :=
  match room.players with
  | [p] => some p.name
  | _ =>
    match room.current_turn_id with
    | none => none
    | some tid =>
      match room.players.find? (fun p => p.id == tid) with
      | some p => if p.hand.length = 0 then some p.name else none
      | none => none

def push_to_reserve (room : Room) (cards : List Card) : Room :=
  if cards.isEmpty then room else { room with reserve := room.reserve ++ cards }

def flow_field (room : Room) : Room :=
  let room : Room := { room with field := [], last_number := none }
  if room.reserve.isEmpty then room
  else { room with deck := room.deck ++ room.reserve, reserve := [] }

def return_cards_to_deck_bottom (room : Room) (cards : List Card) : Room :=
  if cards.isEmpty then room else { room with deck := room.deck ++ cards }

/-! ## Observable outcomes

Python's `await ...send_json` error replies become `Outcome.err`; an
unhandled exception (in particular the `NameError` from the undefined name
`websocket` inside `handle_prime_play`) becomes `Outcome.crash`, which kills
the sender's websocket task.  The distinctive broadcasts/log lines become
`Ev` values. -/

inductive Ev
  | game_over (winner : String)
  | penalty (pid : Nat) (number : Int)
  | play_ok (pid : Nat) (number : Int)
  | infinity_flush (pid : Nat)
  | grothen_cut (pid : Nat)
  | revolution (pid : Nat)
  | pass_ev (pid : Nat)
deriving DecidableEq, Repr

inductive Outcome
  | ok
  | err (msg : String)
  | crash (msg : String)
deriving DecidableEq, Repr

structure ActResult where
  room : Room
  out : Outcome
  events : List Ev
deriving DecidableEq, Repr

def try_end_game (room : Room) : Room × List Ev × Bool :=
  match check_win_condition room with
  | some w => ({ room with state := RState.waiting }, [Ev.game_over w], true)
  | none => (room, [], false)

def next_turn (room : Room) : Room × List Ev :=
  let room : Room := { room with has_drawn := false }
  let active := room.players.filter (fun p => p.status == PStatus.waiting)
  if active.length < 2 then (room, [])
  else
    let t := try_end_game room
    if t.2.2 then (t.1, t.2.1)
    else
      match active.findIdx? (fun p => some p.id == room.current_turn_id) with
      | none => ({ room with current_turn_id := (active.head?).map (fun p => p.id) }, [])
      | some i =>
        ({ room with current_turn_id := (active.get? ((i + 1) % active.length)).map (fun p => p.id) }, [])

/-! ## Prime-mode play (`handle_prime_play`) -/

inductive Assigned
  | inf
  | num (n : Nat)
deriving DecidableEq, Repr

structure PrimePlayData where
  cards : List Card
  assigned_numbers : List Assigned
deriving DecidableEq, Repr

/-- Decimal digits of `n`, most significant first (`str(n)` digit by
digit); fuel-structured so it reduces definitionally. -/
def digits_core : Nat → Nat → List Nat
  | 0, _ => []
  | fuel + 1, n => if n < 10 then [n] else digits_core fuel (n / 10) ++ [n % 10]

def digits_of (n : Nat) : List Nat := digits_core (n + 1) n

def digits_val (ds : List Nat) : Nat := ds.foldl (fun a d => a * 10 + d) 0

/-- `int(ranks_str)` on a concatenated digit string, with `int("")`'s
`ValueError` giving `-1` as in the source. -/
def digits_number (ds : List Nat) : Int :=
  match ds with
  | [] => -1
  | _ => (digits_val ds : Nat)

/-- The rank-string construction loop: jokers take successive assigned
values, other cards their own rank; each piece contributes its decimal
digits.  (An "inf" assignment never reaches this point: the handler crashes
on it first.) -/
def subst_ranks : List Card → List Assigned → List (List Nat)
  | [], _ => []
  | c :: cs, asn =>
    if c.suit = Suit.X then
      match asn with
      | a :: rest =>
        (match a with | .inf => [] | .num n => digits_of n) :: subst_ranks cs rest
      | [] => []
    else digits_of c.rank :: subst_ranks cs asn

def is_prime_int (rnd : List Nat) (n : Int) : Bool :=
  if n < 2 then false else is_prime rnd n.toNat

/-- Penalty draw loop: draw up to `k` cards from the deck front. -/
def penalty_draw (pid : Nat) : Nat → Room → Room
  | 0, room => room
  | k + 1, room =>
    match room.deck with
    | [] => room
    | c :: rest =>
      penalty_draw pid k
        { room.modifyPlayer pid (fun p => { p with hand := add_card p.hand c }) with deck := rest }

def nameError : Outcome := Outcome.crash "NameError: name websocket is not defined"

/-- Stage after the number is built: field-compatibility checks, then the
57 / 1729 / non-prime / prime branches. -/
def prime_play_stage3 (rnd : List Nat) (room : Room) (pid : Nat)
    (played : List Card) (number : Int) : ActResult :=
  if number = 57 then
    let room : Room := push_to_reserve room played
    let room : Room := room.modifyPlayer pid (fun p => { p with hand := remove_cards_list p.hand played })
    let room : Room := flow_field room
    let room : Room := { room with has_drawn := false }
    let t := try_end_game room
    ⟨t.1, .ok, Ev.grothen_cut pid :: t.2.1⟩
  else if number = 1729 then
    let room : Room := { room with reverse_order := !room.reverse_order }
    let room : Room := push_to_reserve room played
    let room : Room := room.modifyPlayer pid (fun p => { p with hand := remove_cards_list p.hand played })
    let room : Room := { room with field := played, last_number := some number }
    let t := next_turn room
    ⟨t.1, .ok, Ev.revolution pid :: t.2⟩
  else if ¬ is_prime_int rnd number then
    let k := if room.rule.penalty_rule = PenaltyRule.ALWAYS_1 then 1 else played.length
    let room : Room := penalty_draw pid k room
    let room : Room := flow_field room
    let t := next_turn room
    ⟨t.1, .ok, Ev.penalty pid number :: t.2⟩
  else
    let room : Room := push_to_reserve room played
    let room : Room := room.modifyPlayer pid (fun p => { p with hand := remove_cards_list p.hand played })
    let room : Room := { room with field := played, last_number := some number }
    let t := next_turn room
    ⟨t.1, .ok, Ev.play_ok pid number :: t.2⟩

/-- Field-compatibility checks (only when the field is non-empty); their
error replies use the undefined name `websocket`, hence `nameError`. -/
def prime_play_stage2 (rnd : List Nat) (room : Room) (pid : Nat)
    (played : List Card) (number : Int) : ActResult :=
  if room.field.isEmpty then prime_play_stage3 rnd room pid played number
  else if played.length ≠ room.field.length then ⟨room, nameError, []⟩
  else
    let field_number := room.last_number.getD (-1)
    if !room.reverse_order ∧ number ≤ field_number then ⟨room, nameError, []⟩
    else if room.reverse_order ∧ number ≥ field_number then ⟨room, nameError, []⟩
    else prime_play_stage3 rnd room pid played number

def handle_prime_play (rnd : List Nat) (room : Room) (pid : Nat) (d : PrimePlayData) : ActResult :=
  match room.getPlayer pid with
  | none => ⟨room, .crash "player not in room", []⟩
  | some player =>
    let played := d.cards
    if ¬ has_cards player.hand played then ⟨room, .err "そのカードは手札にありません。", []⟩
    else
      let jokers := played.filter (fun c => c.suit == Suit.X)
      match jokers, played with
      | [j], [_] =>
        let room : Room := push_to_reserve room played
        let room : Room := room.modifyPlayer pid (fun p => { p with hand := p.hand.erase j })
        let room : Room := flow_field room
        let room : Room := { room with has_drawn := false }
        let t := try_end_game room
        ⟨t.1, .ok, Ev.infinity_flush pid :: t.2.1⟩
      | _, _ =>
        if jokers.length ≠ 0 then
          if d.assigned_numbers.length ≠ jokers.length then ⟨room, nameError, []⟩
          else if Assigned.inf ∈ d.assigned_numbers then ⟨room, nameError, []⟩
          else
            let s := (subst_ranks played d.assigned_numbers).flatten
            if s.head? = some 0 then ⟨room, nameError, []⟩
            else prime_play_stage2 rnd room pid played (digits_number s)
        else
          let s := (played.map (fun c => digits_of c.rank)).flatten
          prime_play_stage2 rnd room pid played (digits_number s)

/-- The `play_card` endpoint branch: turn-ownership guard, then dispatch. -/
def play_card_prime (rnd : List Nat) (room : Room) (pid : Nat) (d : PrimePlayData) : ActResult :=
  if room.current_turn_id ≠ some pid then ⟨room, .err "あなたのターンではありません。", []⟩
  else handle_prime_play rnd room pid d

/-- The `draw_card` endpoint branch. -/
def draw_card (room : Room) (pid : Nat) : ActResult :=
  if room.current_turn_id ≠ some pid then ⟨room, .err "あなたのターンではありません。", []⟩
  else if room.has_drawn then ⟨room, .err "このターンはすでにドロー済みです。", []⟩
  else
    match room.deck with
    | [] => ⟨room, .ok, []⟩
    | drawn :: rest =>
      let room : Room := { room with deck := rest }
      let room : Room := room.modifyPlayer pid (fun p => { p with hand := add_card p.hand drawn })
      ⟨{ room with has_drawn := true }, .ok, []⟩

/-- The `pass` endpoint branch. -/
def pass_action (room : Room) (pid : Nat) : ActResult :=
  if room.current_turn_id ≠ some pid then ⟨room, .err "あなたのターンではありません。", []⟩
  else
    let room : Room := flow_field room
    let t := next_turn room
    ⟨t.1, .ok, Ev.pass_ev pid :: t.2⟩

/-- `leave_room` (also run on disconnect). -/
def leave_room (room : Room) (pid : Nat) : Room × List Ev :=
  match room.getPlayer pid with
  | none => (room, [])
  | some _ =>
    let room : Room := { room with players := room.players.eraseP (fun p => p.id == pid) }
    if room.state = RState.playing then
      match room.players with
      | [p] => ({ room with state := RState.waiting }, [Ev.game_over p.name])
      | _ =>
        if room.current_turn_id = some pid then next_turn room
        else (room, [])
    else (room, [])

/-- `start_game` (the flag resets happen before the two-waiting check, as in
the source). -/
def start_game (fresh : Nat) (sh1 sh2 sh3 : List Card → List Card) (coin : Bool) (room : Room) : Room :=
  let room : Room := { room with reverse_order := false, has_drawn := false }
  match room.players.filter (fun p => p.status == PStatus.waiting) with
  | [p1, p2] =>
    let deck := build_deck fresh sh1 sh2 room.rule
    let dealt := shuffle_and_deal sh3 deck room.rule.hand_size
    let room : Room := room.modifyPlayer p1.id (fun p => { p with hand := sort_hand dealt.1.1 })
    let room : Room := room.modifyPlayer p2.id (fun p => { p with hand := sort_hand dealt.1.2 })
    { room with deck := dealt.2, reserve := [], field := [], last_number := none,
                state := RState.playing,
                current_turn_id := some (if coin then p1.id else p2.id) }
  | _ => room

/-- The `start_game` endpoint branch (requires exactly two waiting). -/
def start_game_endpoint (fresh : Nat) (sh1 sh2 sh3 : List Card → List Card) (coin : Bool)
    (room : Room) : ActResult :=
  if (room.players.filter (fun p => p.status == PStatus.waiting)).length ≠ 2 then
    ⟨room, .err "対戦待ちが2人必要です。", []⟩
  else ⟨start_game fresh sh1 sh2 sh3 coin room, .ok, []⟩

/-! ## Composite mode: token grammar, parser/evaluator -/

def MAX_EXP : Nat := 12

inductive Op
  | times
  | pow
deriving DecidableEq, Repr

inductive Token
  | card (card_id : Nat)
  | op (o : Op)
deriving DecidableEq, Repr

/-- The three exception classes: `CompositeSyntaxError`,
`CompositeMathError`, and the bare `CompositeError` (the latter is caught
only by the websocket endpoint's `except CompositeError`, which also just
reports to the sender). -/
inductive CompErr
  | syn (msg : String)
  | math (msg : String)
  | plain (msg : String)
deriving DecidableEq, Repr

def compErrMsg : CompErr → String
  | .syn m => m
  | .math m => m
  | .plain m => m

/-- Elements of the list returned by `map_joker_values_in_cards`. -/
inductive JVal
  | inf
  | num (n : Nat)
deriving DecidableEq, Repr

/-- The digits a `map_joker_values_in_cards` entry contributes to the
concatenation (an `inf` entry never reaches a concatenation: the callers
that concatenate forbid it). -/
def jval_digits : JVal → List Nat
  | .inf => []
  | .num n => digits_of n

def jv_subst : List Card → List Assigned → List JVal
  | [], _ => []
  | c :: cs, asn =>
    if c.suit = Suit.X then
      match asn with
      | a :: rest =>
        (match a with | .inf => JVal.inf | .num n => JVal.num n) :: jv_subst cs rest
      | [] => []
    else JVal.num c.rank :: jv_subst cs asn

def map_joker_values_in_cards (cards : List Card) (assigned : List Assigned)
    (allow_inf_singleton : Bool) : Except CompErr (List JVal) :=
  let jokers := cards.filter (fun c => c.suit == Suit.X)
  if jokers.length ≠ assigned.length then
    .error (.plain "ジョーカーの数字指定が不足しています。")
  else if Assigned.inf ∈ assigned ∧
      ¬ (allow_inf_singleton = true ∧ cards.length = 1 ∧ jokers.length = 1) then
    .error (.plain "この状況で∞は使用できません。")
  else .ok (jv_subst cards assigned)

/-- `build_int_from_cards`; the `none` parse case models the (unreachable
in the source's call sites) `ValueError` of `int("")`. -/
def build_int_from_cards (seq : List Nat) : Except CompErr Nat :=
  let s := (seq.map digits_of).flatten
  if s.head? = some 0 then .error (.plain "最上位桁が0の数は作れません。")
  else
    match s with
    | [] => .error (.plain "ValueError")
    | _ => .ok (digits_val s)

def is_card : Token → Bool
  | .card _ => true
  | .op _ => false

/-- Any two adjacent same-kind tokens in the list. -/
def adj_kind_clash : List Token → Bool
  | a :: b :: rest => (is_card a == is_card b) || adj_kind_clash (b :: rest)
  | _ => false

/-- The `for i in range(1, len(tokens)-1)` alternation scan: it checks every
adjacent pair except the very first one `(0,1)`. -/
def syntax_clash (tokens : List Token) : Bool :=
  match tokens with
  | _ :: rest => adj_kind_clash rest
  | [] => false

/-- Splitting the stream on `×`. -/
def split_chunks_aux (cur : List Token) : List Token → Except CompErr (List (List Token))
  | [] => .ok [cur.reverse]
  | Token.op Op.times :: rest =>
    if cur.isEmpty then .error (.syn "× の前後が不正です。")
    else
      match split_chunks_aux [] rest with
      | .error e => .error e
      | .ok tail => .ok (cur.reverse :: tail)
  | t :: rest => split_chunks_aux (t :: cur) rest

def split_chunks (tokens : List Token) : Except CompErr (List (List Token)) :=
  split_chunks_aux [] tokens

/-- Python dict `token_card_ranks` lookup (last insertion wins). -/
def tcr_lookup (tcr : List (Nat × Nat)) (cid : Nat) : Option Nat :=
  ((tcr.filter (fun e => e.1 == cid)).getLast?).map (fun e => e.2)

/-- The `expect_card` walk over one chunk, collecting the consecutive-card
groups (`seqs`) and the used card ids. -/
def chunk_seqs_loop (tcr : List (Nat × Nat)) :
    List Token → Bool → List Nat → List Nat → List (List Nat) → List Nat →
      Except CompErr (List (List Nat) × List Nat)
  | [], _, curC, curI, seqs, ids =>
    if curC.isEmpty then .error (.syn "式の末尾が不正です。")
    else .ok (seqs ++ [curC], ids ++ curI)
  | t :: rest, expect, curC, curI, seqs, ids =>
    match t with
    | .card cid =>
      match tcr_lookup tcr cid with
      | none => .error (.syn "未知のカードが指定されました。")
      | some r => chunk_seqs_loop tcr rest false (curC ++ [r]) (curI ++ [cid]) seqs ids
    | .op o =>
      if expect then .error (.syn "^ の使い方が不正です。")
      else if o ≠ Op.pow then .error (.syn "× は分割済みのはずです。")
      else if curC.isEmpty then .error (.syn "演算子の並びが不正です。")
      else chunk_seqs_loop tcr rest true [] [] (seqs ++ [curC]) (ids ++ curI)

def chunk_seqs (tcr : List (Nat × Nat)) (ch : List Token) :
    Except CompErr (List (List Nat) × List Nat) :=
  chunk_seqs_loop tcr ch true [] [] [] []

def build_ints : List (List Nat) → Except CompErr (List Nat)
  | [] => .ok []
  | s :: rest =>
    match build_int_from_cards s with
    | .error e => .error e
    | .ok n =>
      match build_ints rest with
      | .error e => .error e
      | .ok ns => .ok (n :: ns)

/-- The right-to-left exponent fold with the `MAX_EXP` guards (the
per-element check precedes the power, the accumulated check follows it). -/
def fold_exps : List Nat → Except CompErr Nat
  | [] => .ok 1
  | e :: rest =>
    match fold_exps rest with
    | .error err => .error err
    | .ok acc =>
      if e > MAX_EXP then .error (.math "指数が上限を超えています。")
      else
        let acc2 := e ^ acc
        if acc2 > MAX_EXP then .error (.math "合成された指数が上限を超えています。")
        else .ok acc2

def eval_chunk (rnd : List Nat) (tcr : List (Nat × Nat)) (ch : List Token) :
    Except CompErr (Nat × List Nat) :=
  match chunk_seqs tcr ch with
  | .error e => .error e
  | .ok (seqs, ids) =>
    match build_ints seqs with
    | .error e => .error e
    | .ok ints =>
      match ints with
      | [] => .error (.plain "empty chunk")
      | base :: exps =>
        if base < 2 then .error (.syn "底が1桁0/1は不可です。")
        else if ¬ is_prime rnd base then .error (.math "底が素数ではありません。")
        else
          match fold_exps exps with
          | .error e => .error e
          | .ok exp => .ok (base ^ exp, ids)

def eval_chunks (rnd : List Nat) (tcr : List (Nat × Nat)) :
    List (List Token) → Except CompErr (Nat × List Nat)
  | [] => .ok (1, [])
  | ch :: rest =>
    match eval_chunk rnd tcr ch with
    | .error e => .error e
    | .ok r1 =>
      match eval_chunks rnd tcr rest with
      | .error e => .error e
      | .ok r2 => .ok (r1.1 * r2.1, r1.2 ++ r2.2)

def parse_and_eval_composite (rnd : List Nat) (tokens : List Token)
    (tcr : List (Nat × Nat)) : Except CompErr (Nat × List Nat) :=
  match tokens.head?, tokens.getLast? with
  | some t0, some t1 =>
    if ¬ (is_card t0 = true ∧ is_card t1 = true) then
      .error (.syn "式の先頭と末尾はカードである必要があります。")
    else if syntax_clash tokens then
      .error (.syn "カードと演算子は交互に並べてください。")
    else
      match split_chunks tokens with
      | .error e => .error e
      | .ok chunks => eval_chunks rnd tcr chunks
  | _, _ => .error (.syn "合成数の式が空です。")

/-! ## `handle_composite_play` -/

structure CompositeData where
  sel_cards : List Card
  con_cards : List Card
  comp_tokens : List Token
  sel_assigned : List Assigned
  comp_assigned : List Assigned
deriving DecidableEq, Repr

/-- `{c["card_id"]: c for c in sel+con}.values()`: first-occurrence order,
last-occurrence value. -/
def dedup_by_id (cs : List Card) : List Card :=
  ((cs.map (fun c => c.card_id)).eraseDups).map
    (fun i => ((cs.filter (fun c => c.card_id == i)).getLast?).getD ⟨0, Suit.X, 0, true⟩)

/-- How many card tokens resolve to a joker in the player's hand. -/
def comp_joker_count (hand : List Card) (tokens : List Token) : Nat :=
  tokens.countP (fun t =>
    match t with
    | .card cid =>
      ((hand.find? (fun c => c.card_id == cid)).map (fun c => c.is_joker)).getD false
    | .op _ => false)

/-- Building `token_card_ranks` (jokers take `comp_assigned` in token
order). -/
def build_tcr (hand : List Card) (comp_assigned : List Assigned) :
    List Token → Nat → Except String (List (Nat × Nat))
  | [], _ => .ok []
  | .op _ :: rest, j => build_tcr hand comp_assigned rest j
  | .card cid :: rest, j =>
    match hand.find? (fun c => c.card_id == cid) with
    | none => .error "未知のカードが式に含まれています。"
    | some c =>
      if c.is_joker then
        let v := match comp_assigned.get? j with
          | some (Assigned.num n) => n
          | _ => 0
        match build_tcr hand comp_assigned rest (j + 1) with
        | .error e => .error e
        | .ok m => .ok ((cid, v) :: m)
      else
        match build_tcr hand comp_assigned rest j with
        | .error e => .error e
        | .ok m => .ok ((cid, c.rank) :: m)

/-- The math-error penalty path shared by value mismatch and evaluator math
errors. -/
def composite_math_penalty (room : Room) (pid : Nat) (sel_cards : List Card)
    (sel_number : Int) : ActResult :=
  let k := if room.rule.penalty_rule = PenaltyRule.ALWAYS_1 then 1 else sel_cards.length
  let room : Room := penalty_draw pid k room
  let room : Room := flow_field room
  let t := next_turn room
  ⟨t.1, .ok, Ev.penalty pid sel_number :: t.2⟩

def handle_composite_play (rnd : List Nat) (room : Room) (pid : Nat)
    (d : CompositeData) : ActResult :=
  match room.getPlayer pid with
  | none => ⟨room, .crash "player not in room", []⟩
  | some player =>
    let all_consume := dedup_by_id (d.sel_cards ++ d.con_cards)
    if ¬ has_cards player.hand all_consume then
      ⟨room, .err "そのカードは手札にありません。", []⟩
    else
      match map_joker_values_in_cards d.sel_cards d.sel_assigned false with
      | .error e => ⟨room, .err (compErrMsg e), []⟩
      | .ok _ =>
        if comp_joker_count player.hand d.comp_tokens ≠ d.comp_assigned.length
            ∨ Assigned.inf ∈ d.comp_assigned then
          ⟨room, .err "合成数内のジョーカー指定が不正です。", []⟩
        else
          match build_tcr player.hand d.comp_assigned d.comp_tokens 0 with
          | .error msg => ⟨room, .err msg, []⟩
          | .ok tcr =>
            if ¬ room.field.isEmpty ∧ d.sel_cards.length ≠ room.field.length then
              ⟨room, .err "枚数が違います。", []⟩
            else
              match map_joker_values_in_cards d.sel_cards d.sel_assigned false with
              | .error e => ⟨room, .err (compErrMsg e), []⟩
              | .ok sel_ranks =>
                let sel_str := (sel_ranks.map jval_digits).flatten
                if sel_str.head? = some 0 then
                  ⟨room, .err "最上位桁が0の数字は出せません。", []⟩
                else
                  let sel_number : Int := digits_number sel_str
                  let field_number : Int := room.last_number.getD (-1)
                  if ¬ room.field.isEmpty ∧
                      ((!room.reverse_order ∧ sel_number ≤ field_number)
                        ∨ (room.reverse_order ∧ sel_number ≥ field_number)) then
                    ⟨room, .err "場より出せない数字です。", []⟩
                  else
                    match parse_and_eval_composite rnd d.comp_tokens tcr with
                    | .error (.syn msg) => ⟨room, .err msg, []⟩
                    | .error (.plain msg) => ⟨room, .err msg, []⟩
                    | .error (.math _) =>
                      composite_math_penalty room pid d.sel_cards sel_number
                    | .ok (number, _) =>
                      if (number : Int) ≠ sel_number then
                        composite_math_penalty room pid d.sel_cards sel_number
                      else
                        let room : Room := push_to_reserve room d.sel_cards
                        let sel_ids := d.sel_cards.map (fun c => c.card_id)
                        let con_only := d.con_cards.filter
                          (fun c => ¬ sel_ids.contains c.card_id)
                        let room : Room := return_cards_to_deck_bottom room con_only
                        let room : Room := room.modifyPlayer pid
                          (fun p => { p with hand := remove_cards_list p.hand all_consume })
                        let room : Room :=
                          { room with field := d.sel_cards, last_number := some sel_number }
                        let t := next_turn room
                        ⟨t.1, .ok, Ev.play_ok pid sel_number :: t.2⟩

/-- The `play_card` endpoint branch for composite mode. -/
def play_card_comp (rnd : List Nat) (room : Room) (pid : Nat) (d : CompositeData) : ActResult :=
  if room.current_turn_id ≠ some pid then ⟨room, .err "あなたのターンではありません。", []⟩
  else handle_composite_play rnd room pid d

/-! ## Concrete fixtures (cards named after `base_deck 0`) -/

def std51 : RulePreset :=
  ⟨"std-5-1", "標準: 5枚 / ペナ1", DeckRule.DEFAULT, 5, PenaltyRule.ALWAYS_1⟩

def cJ : Card := ⟨52, Suit.X, 0, true⟩
def cS1 : Card := ⟨0, Suit.S, 1, false⟩
def cS2 : Card := ⟨1, Suit.S, 2, false⟩
def cS3 : Card := ⟨2, Suit.S, 3, false⟩
def cS7 : Card := ⟨6, Suit.S, 7, false⟩
def cH4 : Card := ⟨16, Suit.H, 4, false⟩

def pA : Player := ⟨1, "A", PStatus.waiting, [cJ, cS7]⟩
def pA1 : Player := ⟨1, "A", PStatus.waiting, [cS1, cS7]⟩
def pB : Player := ⟨2, "B", PStatus.waiting, [cH4]⟩
def pS : Player := ⟨3, "S", PStatus.watching, []⟩

/-- Duel in progress, A (id 1) to move, empty field. -/
def demo_room : Room := ⟨std51, [pA, pB], RState.playing, [cS3], [], [], none, some 1, false, false⟩

/-- Same, but A holds `[cS1, cS7]`. -/
def demo_room2 : Room := ⟨std51, [pA1, pB], RState.playing, [cS3], [], [], none, some 1, false, false⟩

/-- Duel in progress with a field showing 3. -/
def demo_room_f : Room :=
  ⟨std51, [pA1, pB], RState.playing, [], [cS3], [cS3], some 3, some 1, false, false⟩

/-- Duel in progress with a spectator S present besides duelists A, B. -/
def demo_room9 : Room :=
  ⟨std51, [pA1, pB, pS], RState.playing, [], [], [], none, some 1, false, false⟩

/-- The per-player update done by a full `penalty_draw` run. -/
def pd_update (pid : Nat) (drawn : List Card) (p : Player) : Player :=
  if p.id = pid then { p with hand := drawn.foldl add_card p.hand } else p

/-- Extra fixture for C3's witness: A holds H4 and S7. -/
def pA4 : Player := ⟨1, "A", PStatus.waiting, [cH4, cS7]⟩

def demo_room4 : Room :=
  ⟨std51, [pA4, pB], RState.playing, [cS3], [], [], none, some 1, false, false⟩

/-- Modelled from the spec (§4.4): the right-associative exponent fold,
`fold = groupₖ; fold = groupᵢ ^ fold for i = k-1 downto 2`, as a foldr with
neutral exponent 1. -/
def spec_fold_exps (exps : List Nat) : Nat := exps.foldr (fun e acc => e ^ acc) 1

/-- C4's concrete tower: J^J^J with assigned values 2, 2, 3 (card ids 10,
11, 12). -/
def tower_tokens : List Token :=
  [Token.card 10, Token.op Op.pow, Token.card 11, Token.op Op.pow, Token.card 12]

def tower_tcr : List (Nat × Nat) := [(10, 2), (11, 2), (12, 3)]

/-! ## The duel-action transition system (card conservation)

One websocket action at a time mutates a room.  `Step` is the room-level
transition relation generated by the six duel actions, with all randomness
(shuffles, Miller-Rabin bases, the first-player coin) taken as parameters:
shuffles are assumed to permute their input, and `uuid4` uniqueness becomes
the hypothesis that the ids minted by `start_game` lie strictly above every
id already tracked by the room.  The composite constructor carries the
payload sanity condition that the consumed card list has pairwise distinct
ids (the handler de-duplicates by id before the hand check, so a payload
with repeated ids can enter containers more often than it leaves the
hand). -/

def hand_ids (p : Player) : List Nat := p.hand.map (fun c => c.card_id)

def hands_ids (l : List Player) : List Nat := (l.map hand_ids).flatten

def card_ids (cs : List Card) : List Nat := cs.map (fun c => c.card_id)

/-- Every card id the room tracks as an owned object: hands, draw pile,
reserve.  The field is deliberately not listed: the code stores `field`
cards as copies of cards simultaneously pushed to `reserve`. -/
def all_ids (room : Room) : List Nat :=
  hands_ids room.players ++ card_ids room.deck ++ card_ids room.reserve

def player_ids (room : Room) : List Nat := room.players.map (fun p => p.id)

/-- The conservation invariant that the code actually maintains: card ids
are pairwise distinct across hands, deck and reserve together; every field
card is (also) a reserve card; player ids are pairwise distinct. -/
def conserve_inv (room : Room) : Prop :=
  (all_ids room).Nodup ∧ (∀ c ∈ room.field, c ∈ room.reserve)
    ∧ (player_ids room).Nodup

/-- Rooms as built at process start: empty containers, empty hands,
distinct player ids. -/
def init_ok (room : Room) : Prop :=
  room.deck = [] ∧ room.field = [] ∧ room.reserve = []
    ∧ (∀ p ∈ room.players, p.hand = []) ∧ (player_ids room).Nodup

/-- One duel action (`start_game`, prime play, composite play, draw, pass,
leave), as fired by the websocket endpoint. -/
inductive Step : Room → Room → Prop
  | start (fresh : Nat) (sh1 sh2 sh3 : List Card → List Card) (coin : Bool) (room : Room)
      (h1 : ∀ l, (sh1 l).Perm l) (h2 : ∀ l, (sh2 l).Perm l) (h3 : ∀ l, (sh3 l).Perm l)
      (hfresh : ∀ i ∈ all_ids room, i < fresh) :
      Step room (start_game_endpoint fresh sh1 sh2 sh3 coin room).room
  | prime (rnd : List Nat) (pid : Nat) (d : PrimePlayData) (room : Room) :
      Step room (play_card_prime rnd room pid d).room
  | comp (rnd : List Nat) (pid : Nat) (d : CompositeData) (room : Room)
      (hids : (card_ids (d.sel_cards ++ d.con_cards)).Nodup) :
      Step room (play_card_comp rnd room pid d).room
  | draw (pid : Nat) (room : Room) :
      Step room (draw_card room pid).room
  | pass_a (pid : Nat) (room : Room) :
      Step room (pass_action room pid).room
  | leave (pid : Nat) (room : Room) :
      Step room (leave_room room pid).1

/-- Rooms reachable from a fresh room by duel actions. -/
inductive Reachable : Room → Prop
  | init (room : Room) (h : init_ok room) : Reachable room
  | step (r r' : Room) (hr : Reachable r) (hs : Step r r') : Reachable r'

/-- A fresh two-player room (C1's concrete run starts here). -/
def cex_room0 : Room :=
  ⟨std51, [⟨1, "A", PStatus.waiting, []⟩, ⟨2, "B", PStatus.waiting, []⟩],
    RState.waiting, [], [], [], none, none, false, false⟩

/-- After `start_game` with identity shuffles and the coin giving A the
turn: A holds the cards at even deck positions, among them `cS3`. -/
def cex_room1 : Room := (start_game_endpoint 0 id id id true cex_room0).room

/-- After A plays the single prime card `cS3` (rank 3): the room stores
`cS3` in `field` and in `reserve` at once. -/
def cex_room2 : Room := (play_card_prime [] cex_room1 1 ⟨[cS3], []⟩).room

/-! ## Theorems -/

theorem tdiv_loop_iff (n : Nat) :
    ∀ (fuel d : Nat), 2 ≤ d → (∀ e, d ≤ e → e * e ≤ n → e < d + fuel) →
      (tdiv_loop fuel d n = true ↔ ∀ e, d ≤ e → e * e ≤ n → ¬ e ∣ n) := by
  intro fuel
  induction fuel with
  | zero =>
    intro d _ hbound
    simp only [tdiv_loop, true_iff]
    intro e hde hee
    exact absurd (hbound e hde hee) (by omega)
  | succ fuel ih =>
    intro d hd2 hbound
    simp only [tdiv_loop]
    by_cases hdd : d * d > n
    · simp only [if_pos hdd, true_iff]
      intro e hde hee
      have : d * d ≤ e * e := Nat.mul_le_mul hde hde
      omega
    · rw [if_neg hdd]
      by_cases hmod : n % d = 0
      · rw [if_pos hmod]
        simp only [Bool.false_eq_true, false_iff]
        intro hall
        exact hall d (le_refl d) (by omega) (Nat.dvd_of_mod_eq_zero hmod)
      · rw [if_neg hmod]
        have hrec := ih (d + 1) (by omega)
          (fun e he hee => by have := hbound e (by omega) hee; omega)
        rw [hrec]
        constructor
        · intro h e hde hee
          rcases Nat.eq_or_lt_of_le hde with rfl | hlt
          · intro hdvd
            exact hmod (Nat.dvd_iff_mod_eq_zero.mp hdvd)
          · exact h e hlt hee
        · intro h e hde hee
          exact h e (by omega) hee

theorem trial_division_iff_prime (n : Nat) :
    trial_division n = true ↔ Nat.Prime n := by
  unfold trial_division
  rcases Nat.lt_or_ge n 2 with h2 | h2
  · simp only [Bool.and_eq_true, decide_eq_true_eq]
    constructor
    · intro h; omega
    · intro h; exact absurd h.two_le (by omega)
  · have hloop := tdiv_loop_iff n n 2 (le_refl 2)
      (fun e he hee => by nlinarith)
    simp only [Bool.and_eq_true, decide_eq_true_eq, hloop]
    rw [Nat.prime_def_le_sqrt]
    constructor
    · rintro ⟨-, h⟩
      exact ⟨h2, fun m hm hsq => h m hm (Nat.le_sqrt.mp hsq)⟩
    · rintro ⟨-, h⟩
      exact ⟨h2, fun e he hee => h e he (Nat.le_sqrt.mpr hee)⟩

/-- Below `2^64` the oracle never consults the random witness list. -/
theorem is_prime_rnd_irrel (rnd : List Nat) (n : Nat) (h : n < 2 ^ 64) :
    is_prime rnd n = is_prime [] n := by
  unfold is_prime
  rcases Nat.lt_or_ge n 2 with h2 | h2
  · simp [h2]
  · simp only [if_neg (Nat.not_lt.mpr h2)]
    cases hscan : small_prime_scan n _SMALL_PRIMES with
    | some b => rfl
    | none =>
      have h64 : n < 18446744073709551616 := h
      simp [h64]

-- BEGIN_SLOW_DECIDE
theorem is_prime_td_chunk0 :
    ∀ m < 1000, is_prime [] m = trial_division m := by decide
theorem is_prime_td_chunk1 :
    ∀ m < 1000, is_prime [] (1000 + m) = trial_division (1000 + m) := by decide
theorem is_prime_td_chunk2 :
    ∀ m < 1000, is_prime [] (2000 + m) = trial_division (2000 + m) := by decide
theorem is_prime_td_chunk3 :
    ∀ m < 1000, is_prime [] (3000 + m) = trial_division (3000 + m) := by decide
theorem is_prime_td_chunk4 :
    ∀ m < 1000, is_prime [] (4000 + m) = trial_division (4000 + m) := by decide
theorem is_prime_td_chunk5 :
    ∀ m < 1000, is_prime [] (5000 + m) = trial_division (5000 + m) := by decide
theorem is_prime_td_chunk6 :
    ∀ m < 1000, is_prime [] (6000 + m) = trial_division (6000 + m) := by decide
theorem is_prime_td_chunk7 :
    ∀ m < 1000, is_prime [] (7000 + m) = trial_division (7000 + m) := by decide
theorem is_prime_td_chunk8 :
    ∀ m < 1000, is_prime [] (8000 + m) = trial_division (8000 + m) := by decide
theorem is_prime_td_chunk9 :
    ∀ m < 1000, is_prime [] (9000 + m) = trial_division (9000 + m) := by decide
theorem is_prime_td_top :
    is_prime [] 10000 = trial_division 10000 := by decide

-- END_SLOW_DECIDE
theorem is_prime_eq_trial_division (rnd : List Nat) (n : Nat) (h : n ≤ 10000) :
    is_prime rnd n = trial_division n := by
  rw [is_prime_rnd_irrel rnd n (by omega)]
  by_cases h0 : n < 1000
  · exact is_prime_td_chunk0 n h0
  by_cases h1 : n < 2000
  · have e : n = 1000 + (n - 1000) := by omega
    rw [e]; exact is_prime_td_chunk1 _ (by omega)
  by_cases h2 : n < 3000
  · have e : n = 2000 + (n - 2000) := by omega
    rw [e]; exact is_prime_td_chunk2 _ (by omega)
  by_cases h3 : n < 4000
  · have e : n = 3000 + (n - 3000) := by omega
    rw [e]; exact is_prime_td_chunk3 _ (by omega)
  by_cases h4 : n < 5000
  · have e : n = 4000 + (n - 4000) := by omega
    rw [e]; exact is_prime_td_chunk4 _ (by omega)
  by_cases h5 : n < 6000
  · have e : n = 5000 + (n - 5000) := by omega
    rw [e]; exact is_prime_td_chunk5 _ (by omega)
  by_cases h6 : n < 7000
  · have e : n = 6000 + (n - 6000) := by omega
    rw [e]; exact is_prime_td_chunk6 _ (by omega)
  by_cases h7 : n < 8000
  · have e : n = 7000 + (n - 7000) := by omega
    rw [e]; exact is_prime_td_chunk7 _ (by omega)
  by_cases h8 : n < 9000
  · have e : n = 8000 + (n - 8000) := by omega
    rw [e]; exact is_prime_td_chunk8 _ (by omega)
  by_cases h9 : n < 10000
  · have e : n = 9000 + (n - 9000) := by omega
    rw [e]; exact is_prime_td_chunk9 _ (by omega)
  · have e : n = 10000 := by omega
    rw [e]; exact is_prime_td_top

/-! Basic permutation facts about the hand/deck manipulations. -/

theorem insert_by_rank_perm (c : Card) (l : List Card) :
    (insert_by_rank c l).Perm (c :: l) := by
  induction l with
  | nil => simp [insert_by_rank]
  | cons d ds ih =>
    unfold insert_by_rank
    by_cases h : c.rank < d.rank
    · rw [if_pos h]
    · rw [if_neg h]
      exact (ih.cons d).trans (List.Perm.swap c d ds)

theorem sort_hand_perm (l : List Card) : (sort_hand l).Perm l := by
  induction l with
  | nil => simp [sort_hand]
  | cons c cs ih =>
    unfold sort_hand
    simp only [List.foldr_cons]
    exact (insert_by_rank_perm c _).trans (ih.cons c)

theorem add_card_perm (h : List Card) (c : Card) : (add_card h c).Perm (c :: h) := by
  unfold add_card
  refine (sort_hand_perm _).trans ?_
  exact (List.perm_append_singleton c h)

/-- `has_cards` succeeding means the hand is, as a multiset, the played
cards plus what the removal loop leaves. -/
theorem has_cards_perm (cs : List Card) :
    ∀ h, has_cards h cs = true → h.Perm (cs ++ remove_cards_list h cs) := by
  induction cs with
  | nil => intro h _; simp [remove_cards_list]
  | cons c cs ih =>
    intro h hh
    unfold has_cards at hh
    cases hcc : h.contains c with
    | false =>
      rw [hcc] at hh
      simp at hh
    | true =>
      rw [hcc, if_pos rfl] at hh
      have hmem : c ∈ h := by
        have := hcc
        simpa using this
      have step : h.Perm (c :: h.erase c) := List.perm_cons_erase hmem
      have ihh := ih (h.erase c) hh
      have heq : remove_cards_list h (c :: cs) = remove_cards_list (h.erase c) cs := by
        simp [remove_cards_list, List.foldl_cons]
      rw [List.cons_append, heq]
      exact step.trans (ihh.cons c)

theorem remove_cards_list_sublist (cs : List Card) :
    ∀ h, (remove_cards_list h cs).Sublist h := by
  induction cs with
  | nil => intro h; simp [remove_cards_list]
  | cons c cs ih =>
    intro h
    have h1 : (remove_cards_list (h.erase c) cs).Sublist (h.erase c) := ih (h.erase c)
    have h2 : (h.erase c).Sublist h := List.erase_sublist c h
    simpa [remove_cards_list, List.foldl_cons] using h1.trans h2

/-- C8 helper: with `EVEN_HALVED`, the built deck is a permutation of the
base deck minus the removed (even, D/H, non-joker) cards, for any pair of
permuting shuffles. -/
theorem build_deck_even_halved_perm (fresh : Nat) (sh1 sh2 : List Card → List Card)
    (h1 : ∀ l, (sh1 l).Perm l) (h2 : ∀ l, (sh2 l).Perm l)
    (rule : RulePreset) (hr : rule.deck_rule = DeckRule.EVEN_HALVED) :
    (build_deck fresh sh1 sh2 rule).Perm
      ((base_deck fresh).filter (fun c => !(even_halved_removed c))) := by
  unfold build_deck generate_deck
  simp only [hr, if_pos rfl]
  exact (h2 _).trans ((h1 (base_deck fresh)).filter _)

/-- Filtering a single suit's run reduces to filtering `range 13`. -/
theorem suit_cards_filter_length (p : Card → Bool) (s : Suit) (b : Nat) :
    ((suit_cards s b).filter p).length
      = ((List.range 13).filter (fun i => p ⟨b + i, s, i + 1, false⟩)).length := by
  unfold suit_cards
  rw [List.filter_map, List.length_map]
  rfl

/-- The removed D/H evens number 12, exactly half of the 24 even-rank
non-joker cards, for every id base. -/
theorem even_halved_counts (fresh : Nat) :
    ((base_deck fresh).filter even_halved_removed).length = 12
      ∧ ((base_deck fresh).filter (fun c => !c.is_joker && c.rank % 2 == 0)).length = 24 := by
  constructor <;>
  · unfold base_deck
    simp only [List.filter_append, List.length_append, suit_cards_filter_length,
      even_halved_removed, List.filter_cons, List.filter_nil]
    simp only [Bool.not_true, Bool.false_and, Bool.and_false, if_neg, Bool.false_eq_true,
      not_false_eq_true, List.length_nil]
    decide

/-! Room-logic lemmas shared by several claims. -/

theorem check_win_condition_has_drawn (room : Room) (b : Bool) :
    check_win_condition { room with has_drawn := b } = check_win_condition room := rfl

theorem try_end_game_shape (room : Room) :
    (try_end_game room = (room, [], false))
      ∨ (∃ w, check_win_condition room = some w
          ∧ try_end_game room = ({ room with state := RState.waiting }, [Ev.game_over w], true)) := by
  unfold try_end_game
  cases hw : check_win_condition room with
  | some w => exact Or.inr ⟨w, rfl, rfl⟩
  | none => exact Or.inl rfl

/-- `next_turn` only rewrites `current_turn_id`, `state` and `has_drawn`
(the latter always to `false`), and emits at most a single game-over
event. -/
theorem next_turn_shape (room : Room) :
    ∃ ct st, (next_turn room).1
        = { room with current_turn_id := ct, state := st, has_drawn := false }
      ∧ ((next_turn room).2 = [] ∨ ∃ w, (next_turn room).2 = [Ev.game_over w]) := by
  unfold next_turn
  dsimp only
  split
  · exact ⟨room.current_turn_id, room.state, rfl, Or.inl rfl⟩
  · rcases try_end_game_shape { room with has_drawn := false } with he | ⟨w, -, he⟩
    · rw [he]
      dsimp only
      rw [if_neg (by simp)]
      split
      · exact ⟨_, room.state, rfl, Or.inl rfl⟩
      · exact ⟨_, room.state, rfl, Or.inl rfl⟩
    · rw [he]
      dsimp only
      rw [if_pos rfl]
      exact ⟨room.current_turn_id, RState.waiting, rfl, Or.inr ⟨w, rfl⟩⟩

/-- `next_turn` only touches `has_drawn`, `current_turn_id` and `state`. -/
theorem next_turn_fields (room : Room) :
    (next_turn room).1.players = room.players ∧ (next_turn room).1.deck = room.deck
      ∧ (next_turn room).1.reserve = room.reserve
      ∧ (next_turn room).1.field = room.field
      ∧ (next_turn room).1.rule = room.rule
      ∧ (next_turn room).1.last_number = room.last_number := by
  obtain ⟨ct, st, h1, -⟩ := next_turn_shape room
  rw [h1]
  exact ⟨rfl, rfl, rfl, rfl, rfl, rfl⟩

/-- When no winner is found, `next_turn` emits no events. -/
theorem next_turn_no_winner (room : Room)
    (hnw : check_win_condition room = none) :
    (next_turn room).2 = [] := by
  unfold next_turn try_end_game
  dsimp only
  have hnw2 : check_win_condition { room with has_drawn := false } = none := hnw
  rw [hnw2]
  dsimp only
  split
  · rfl
  · rw [if_neg (by simp)]
    split
    · rfl
    · rfl

/-- The standard rotation: two waiting duelists, the mover holds the turn
and a non-empty hand afterwards, so the turn passes to the other duelist
and no event is emitted. -/
theorem next_turn_two_duelists (room : Room) (qA qB : Player)
    (hps : room.players = [qA, qB])
    (hA : qA.status = PStatus.waiting) (hB : qB.status = PStatus.waiting)
    (hcur : room.current_turn_id = some qA.id)
    (hhand : qA.hand ≠ []) :
    next_turn room = ({ room with has_drawn := false, current_turn_id := some qB.id }, []) := by
  have hwin : check_win_condition room = none := by
    unfold check_win_condition
    rw [hps, hcur]
    simp only [List.find?]
    rw [show (qA.id == qA.id) = true by simp]
    simp [List.length_eq_zero, hhand]
  unfold next_turn try_end_game
  dsimp only
  have hact : List.filter (fun p => p.status == PStatus.waiting) room.players = [qA, qB] := by
    rw [hps]
    simp [hA, hB]
  rw [hact]
  rw [if_neg (by simp)]
  have hwin2 : check_win_condition { room with has_drawn := false } = none := hwin
  rw [hwin2]
  dsimp only
  rw [if_neg (by simp)]
  have hidx : List.findIdx? (fun p => some p.id == room.current_turn_id) [qA, qB] = some 0 := by
    rw [hcur]
    simp [List.findIdx?]
  rw [hidx]
  rfl

/-- With fewer than two waiting players, `next_turn` only resets the
drawn flag: the turn holder is untouched. -/
theorem next_turn_few (room : Room)
    (h : (room.players.filter (fun p => p.status == PStatus.waiting)).length < 2) :
    next_turn room = ({ room with has_drawn := false }, []) := by
  unfold next_turn
  dsimp only
  rw [if_pos h]

/-- After erasing the (unique) player with this id, no player with the id
remains. -/
theorem eraseP_find_none (pid : Nat) :
    ∀ (l : List Player), (l.map (fun q => q.id)).Nodup →
      ((l.eraseP (fun q => q.id == pid)).find? (fun q => q.id == pid)) = none := by
  intro l
  induction l with
  | nil => intro _; rfl
  | cons p ps ih =>
    intro hnd
    simp only [List.map_cons, List.nodup_cons] at hnd
    by_cases hp : p.id = pid
    · rw [List.eraseP_cons_of_pos (by simp [hp])]
      rw [List.find?_eq_none]
      intro q hq hqid
      apply hnd.1
      rw [List.mem_map]
      refine ⟨q, hq, ?_⟩
      have : q.id = pid := by simpa using hqid
      rw [this, hp]
    · rw [List.eraseP_cons_of_neg (by simp [hp])]
      rw [List.find?_cons_of_neg _ (by simp [hp])]
      exact ih hnd.2

/-- C9 (amended): on a leave/disconnect from a room whose duel is active, a
winner is declared exactly when exactly one player — of any status, duelist
or spectator — remains in the room after the departure; that sole remaining
player is declared winner regardless of their hand.  With two or more
players remaining (even when only one duelist remains among them) no winner
is declared; and if the departing player held the turn, `next_turn` is
invoked on the shrunken room (third conjunct), which changes the turn
holder only when at least two waiting players remain: with fewer, the
holder is untouched (fourth conjunct). -/
theorem C9_leave_win_iff_sole_survivor (room : Room) (pid : Nat) (p : Player)
    (hstate : room.state = RState.playing)
    (hmem : room.getPlayer pid = some p)
    (hnd : (room.players.map (fun q => q.id)).Nodup) :
    ((leave_room room pid).2 ≠ []
        ↔ (room.players.eraseP (fun q => q.id == pid)).length = 1)
      ∧ (∀ q, room.players.eraseP (fun q' => q'.id == pid) = [q] →
          (leave_room room pid).2 = [Ev.game_over q.name]
            ∧ (leave_room room pid).1.state = RState.waiting)
      ∧ (room.current_turn_id = some pid →
          (room.players.eraseP (fun q => q.id == pid)).length ≠ 1 →
          leave_room room pid
            = next_turn { room with
                players := room.players.eraseP (fun q => q.id == pid) })
      ∧ (room.current_turn_id = some pid →
          ((room.players.eraseP (fun q => q.id == pid)).filter
              (fun q => q.status == PStatus.waiting)).length < 2 →
          (leave_room room pid).1.current_turn_id = room.current_turn_id) := by
  unfold Room.getPlayer at hmem
  unfold leave_room Room.getPlayer
  rw [hmem]
  dsimp only
  rw [if_pos hstate]
  have hfind := eraseP_find_none pid room.players hnd
  cases hrest : room.players.eraseP (fun q => q.id == pid) with
  | nil =>
    dsimp only
    by_cases hc : room.current_turn_id = some pid
    · rw [if_pos hc]
      have hfew : ((([] : List Player)).filter
          (fun q => q.status == PStatus.waiting)).length < 2 := by simp
      rw [next_turn_few { room with players := ([] : List Player) } hfew]
      refine ⟨by simp, ?_, ?_, ?_⟩
      · intro q habs
        simp at habs
      · intro _ _
        rfl
      · intro _ _
        rfl
    · rw [if_neg hc]
      refine ⟨by simp, ?_, ?_, ?_⟩
      · intro q habs
        simp at habs
      · intro h _
        exact absurd h hc
      · intro h _
        exact absurd h hc
  | cons q1 qs =>
    cases qs with
    | nil =>
      dsimp only
      refine ⟨by simp, ?_, ?_, ?_⟩
      · intro q hq
        have hq1 : q1 = q := by
          simpa using hq
        rw [hq1]
        exact ⟨rfl, rfl⟩
      · intro _ hlen
        simp at hlen
      · intro _ _
        rfl
    | cons q2 qs2 =>
      dsimp only
      by_cases hc : room.current_turn_id = some pid
      · rw [if_pos hc]
        have hnw : check_win_condition
            { room with players := q1 :: q2 :: qs2 } = none := by
          unfold check_win_condition
          dsimp only
          rw [hc]
          dsimp only
          rw [hrest] at hfind
          rw [hfind]
        rw [next_turn_no_winner _ hnw]
        refine ⟨by simp, ?_, ?_, ?_⟩
        · intro q habs
          simp at habs
        · intro _ _
          rfl
        · intro _ hfew
          rw [next_turn_few _ hfew]
      · rw [if_neg hc]
        refine ⟨by simp, ?_, ?_, ?_⟩
        · intro q habs
          simp at habs
        · intro h _
          exact absurd h hc
        · intro h _
          exact absurd h hc

/-- C9 witness: the theorem at a concrete two-duelist room: A leaves, B is
the sole survivor and wins at once (with a non-empty hand). -/
theorem C9_witness :
    (((leave_room demo_room2 1).2 ≠ []
        ↔ (demo_room2.players.eraseP (fun q => q.id == 1)).length = 1)
      ∧ (∀ q, demo_room2.players.eraseP (fun q' => q'.id == 1) = [q] →
          (leave_room demo_room2 1).2 = [Ev.game_over q.name]
            ∧ (leave_room demo_room2 1).1.state = RState.waiting)
      ∧ (demo_room2.current_turn_id = some 1 →
          (demo_room2.players.eraseP (fun q => q.id == 1)).length ≠ 1 →
          leave_room demo_room2 1
            = next_turn { demo_room2 with
                players := demo_room2.players.eraseP (fun q => q.id == 1) })
      ∧ (demo_room2.current_turn_id = some 1 →
          ((demo_room2.players.eraseP (fun q => q.id == 1)).filter
              (fun q => q.status == PStatus.waiting)).length < 2 →
          (leave_room demo_room2 1).1.current_turn_id
            = demo_room2.current_turn_id)) :=
  C9_leave_win_iff_sole_survivor demo_room2 1 pA1 rfl rfl (by decide)

/-- Every outcome of the post-number stage announces itself with a
non-flush event (or the flush sentinel path was never entered). -/
theorem stage3_head_not_infinity (rnd : List Nat) (room : Room) (pid : Nat)
    (played : List Card) (number : Int) :
    (prime_play_stage3 rnd room pid played number).events.head?
      ≠ some (Ev.infinity_flush pid) := by
  unfold prime_play_stage3
  dsimp only
  split
  · simp
  · split
    · simp
    · split
      · simp
      · simp

theorem stage2_head_not_infinity (rnd : List Nat) (room : Room) (pid : Nat)
    (played : List Card) (number : Int) :
    (prime_play_stage2 rnd room pid played number).events.head?
      ≠ some (Ev.infinity_flush pid) := by
  unfold prime_play_stage2
  split
  · exact stage3_head_not_infinity rnd room pid played number
  · split
    · simp
    · dsimp only
      split
      · simp
      · split
        · simp
        · exact stage3_head_not_infinity rnd room pid played number

/-- C7 (amended): in prime mode the flush path is taken exactly when the
play is one single Joker card — the assigned value is never consulted, so a
single Joker with a numeric assignment still flushes; in any other play
containing a Joker the sentinel "infinite" aborts the action with no state
change, via the undefined-`websocket` NameError path (third conjunct); and
Joker assignments are not range-checked: in the second conjunct the
out-of-range assignment 99 is accepted and the play (number 997, prime)
succeeds. -/
theorem C7_flush_iff_single_joker (rnd : List Nat) (room : Room) (pid : Nat)
    (d : PrimePlayData) (player : Player)
    (hp : room.getPlayer pid = some player)
    (hhc : has_cards player.hand d.cards = true) :
    ((handle_prime_play rnd room pid d).events.head? = some (Ev.infinity_flush pid)
        ↔ ∃ c, d.cards = [c] ∧ c.suit = Suit.X)
      ∧ (handle_prime_play [] demo_room 1 ⟨[cJ, cS7], [Assigned.num 99]⟩).out
          = Outcome.ok
      ∧ ((d.cards.filter (fun c => c.suit == Suit.X)).length ≠ 0 →
          2 ≤ d.cards.length →
          Assigned.inf ∈ d.assigned_numbers →
          handle_prime_play rnd room pid d = ⟨room, nameError, []⟩) := by
  refine ⟨?_, by rfl, ?abort⟩
  case abort =>
    intro hj hlen hinf
    unfold handle_prime_play
    rw [hp]
    dsimp only
    rw [if_neg (by simp [hhc])]
    rcases hdc : d.cards with - | ⟨c1, cs⟩
    · rw [hdc] at hlen
      simp at hlen
    · rcases cs with - | ⟨c2, cs2⟩
      · rw [hdc] at hlen
        simp at hlen
      · rw [hdc] at hj
        cases hjk : (c1 :: c2 :: cs2).filter (fun c => c.suit == Suit.X) with
        | nil =>
          rw [hjk] at hj
          simp at hj
        | cons j js =>
          cases js with
          | nil =>
            rw [if_pos (show (([j] : List Card)).length ≠ 0 by simp)]
            by_cases hcnt : d.assigned_numbers.length = ([j] : List Card).length
            · rw [if_neg (by simp [hcnt])]
              rw [if_pos hinf]
            · rw [if_pos hcnt]
          | cons j2 js2 =>
            dsimp only
            rw [if_pos (show ((j :: j2 :: js2 : List Card)).length ≠ 0 by simp)]
            by_cases hcnt : d.assigned_numbers.length = (j :: j2 :: js2 : List Card).length
            · rw [if_neg (by simp [hcnt])]
              rw [if_pos hinf]
            · rw [if_pos hcnt]
  unfold handle_prime_play
  rw [hp]
  dsimp only
  rw [if_neg (by simp [hhc])]
  rcases hdc : d.cards with - | ⟨c, cs⟩
  · simp only [List.filter_nil]
    constructor
    · intro h
      exact absurd h (stage2_head_not_infinity rnd room pid [] _)
    · rintro ⟨c, hcc, -⟩
      simp at hcc
  · rcases cs with - | ⟨c2, cs2⟩
    · by_cases hx : c.suit = Suit.X
      · rw [show List.filter (fun c => c.suit == Suit.X) [c] = [c] by simp [hx]]
        dsimp only
        constructor
        · intro _
          exact ⟨c, rfl, hx⟩
        · intro _
          rfl
      · rw [show List.filter (fun c => c.suit == Suit.X) [c] = [] by simp [hx]]
        dsimp only
        constructor
        · intro h
          exact absurd h (stage2_head_not_infinity rnd room pid [c] _)
        · rintro ⟨c', hcc, hcx⟩
          have : c = c' := by simpa using hcc
          exact absurd (this ▸ hcx) hx
    · have hnotsingle : ∀ c' : Card, ¬ (c :: c2 :: cs2 = [c']) := by
        intro c' h
        simp at h
      constructor
      · intro h
        exfalso
        revert h
        cases hjk : List.filter (fun c => c.suit == Suit.X) (c :: c2 :: cs2) with
        | nil =>
          dsimp only
          exact stage2_head_not_infinity rnd room pid _ _
        | cons j js =>
          cases js with
          | nil =>
            dsimp only
            repeat' split
            all_goals
              first
              | exact stage2_head_not_infinity rnd room pid _ _
              | simp
          | cons j2 js2 =>
            dsimp only
            repeat' split
            all_goals
              first
              | exact stage2_head_not_infinity rnd room pid _ _
              | simp
      · rintro ⟨c', hcc, -⟩
        exact absurd hcc (hnotsingle c')

/-- C7 witness: the iff at the concrete single-Joker-assigned-7 play. -/
theorem C7_witness :
    (((handle_prime_play [] demo_room 1 ⟨[cJ], [Assigned.num 7]⟩).events.head?
          = some (Ev.infinity_flush 1)
        ↔ ∃ c, ([cJ] : List Card) = [c] ∧ c.suit = Suit.X)
      ∧ (handle_prime_play [] demo_room 1 ⟨[cJ, cS7], [Assigned.num 99]⟩).out
          = Outcome.ok
      ∧ ((([cJ] : List Card).filter (fun c => c.suit == Suit.X)).length ≠ 0 →
          2 ≤ ([cJ] : List Card).length →
          Assigned.inf ∈ ([Assigned.num 7] : List Assigned) →
          handle_prime_play [] demo_room 1 ⟨[cJ], [Assigned.num 7]⟩
            = ⟨demo_room, nameError, []⟩)) :=
  C7_flush_iff_single_joker [] demo_room 1 ⟨[cJ], [Assigned.num 7]⟩ pA rfl (by decide)

/-! Structural forms of the container-moving helpers. -/

theorem push_to_reserve_eq (room : Room) (cards : List Card) :
    push_to_reserve room cards = { room with reserve := room.reserve ++ cards } := by
  unfold push_to_reserve
  split
  · rename_i h
    have hc : cards = [] := by simpa using h
    rw [hc, List.append_nil]
  · rfl

theorem return_cards_to_deck_bottom_eq (room : Room) (cards : List Card) :
    return_cards_to_deck_bottom room cards = { room with deck := room.deck ++ cards } := by
  unfold return_cards_to_deck_bottom
  split
  · rename_i h
    have hc : cards = [] := by simpa using h
    rw [hc, List.append_nil]
  · rfl

theorem flow_field_eq (room : Room) :
    flow_field room
      = { room with
          field := [],
          last_number := none,
          deck := room.deck ++ room.reserve,
          reserve := [] } := by
  unfold flow_field
  dsimp only
  split
  · rename_i h
    have hc : room.reserve = [] := by simpa using h
    rw [hc, List.append_nil]
  · rfl

/-- Drawing a list of cards one by one is, as a multiset, appending it. -/
theorem foldl_add_card_perm (cards : List Card) :
    ∀ h, (cards.foldl add_card h).Perm (h ++ cards) := by
  induction cards with
  | nil => intro h; simp
  | cons c cs ih =>
    intro h
    rw [List.foldl_cons]
    refine (ih (add_card h c)).trans ?_
    have h1 : (add_card h c ++ cs).Perm ((c :: h) ++ cs) :=
      (add_card_perm h c).append_right cs
    refine h1.trans ?_
    have h2 : ((c :: h) ++ cs).Perm (h ++ (c :: cs)) := by
      simp only [List.cons_append]
      exact (List.perm_middle).symm
    exact h2

/-- `penalty_draw` in closed form: the drawn prefix of the deck is folded
into the drawing player's hand, the deck loses that prefix, everything else
is untouched. -/
theorem penalty_draw_spec (pid : Nat) :
    ∀ (k : Nat) (room : Room),
      penalty_draw pid k room
        = { room with
            players := room.players.map (pd_update pid (room.deck.take k)),
            deck := room.deck.drop k } := by
  intro k
  induction k with
  | zero =>
    intro room
    unfold penalty_draw
    have hfun : pd_update pid (room.deck.take 0) = id := by
      funext p
      unfold pd_update
      simp only [List.take_zero, List.foldl_nil]
      split <;> rfl
    rw [hfun, List.map_id, List.drop_zero]
  | succ k ih =>
    intro room
    unfold penalty_draw
    cases hdk : room.deck with
    | nil =>
      dsimp only
      have hfun : pd_update pid (List.take (k + 1) ([] : List Card)) = id := by
        funext p
        unfold pd_update
        simp only [List.take_nil, List.foldl_nil]
        split <;> rfl
      rw [hfun, List.map_id, List.drop_nil, ← hdk]
    | cons c rest =>
      dsimp only
      rw [ih]
      unfold Room.modifyPlayer
      dsimp only
      rw [List.map_map]
      have hfun : pd_update pid (List.take k rest) ∘
          (fun p => if p.id = pid then { p with hand := add_card p.hand c } else p)
          = pd_update pid (List.take (k + 1) (c :: rest)) := by
        funext p
        unfold pd_update
        by_cases hp : p.id = pid
        · simp [Function.comp_def, hp, List.take_succ_cons, List.foldl_cons]
        · simp [Function.comp_def, hp]
      rw [hfun]
      rfl

/-- A successful `has_cards` means every requested card is in the hand. -/
theorem has_cards_mem (cs : List Card) (h : List Card)
    (hh : has_cards h cs = true) : ∀ c ∈ cs, c ∈ h := by
  intro c hc
  have hperm := has_cards_perm cs h hh
  exact hperm.mem_iff.mpr (List.mem_append_left _ hc)

/-- `find?` by id commutes with an id-preserving map of the player list. -/
theorem find_map_id_pres (pid : Nat) (f : Player → Player) (hf : ∀ p, (f p).id = p.id) :
    ∀ (l : List Player) (player : Player),
      l.find? (fun p => p.id == pid) = some player →
      (l.map f).find? (fun p => p.id == pid) = some (f player) := by
  intro l
  induction l with
  | nil => intro player h; simp [List.find?] at h
  | cons a l ih =>
    intro player h
    by_cases ha : a.id = pid
    · rw [List.find?_cons_of_pos _ (by simpa using ha)] at h
      injection h with h
      subst h
      rw [List.map_cons, List.find?_cons_of_pos _ (by simp [hf, ha])]
    · rw [List.find?_cons_of_neg _ (by simpa using ha)] at h
      rw [List.map_cons, List.find?_cons_of_neg _ (by simp [hf, ha])]
      exact ih player h

/-- After the number is built, whenever the field comparison lets the play
through, a number that is neither 57 nor 1729 and is not prime lands in the
penalty branch: `penalty_draw`, `flow_field`, `next_turn`, penalty event. -/
theorem stage2_penalty_spec (rnd : List Nat) (room : Room) (pid : Nat)
    (played : List Card) (number : Int) (k : Nat)
    (hfield : room.field.isEmpty = true
      ∨ (played.length = room.field.length
          ∧ ¬ ((!room.reverse_order) = true ∧ number ≤ room.last_number.getD (-1))
          ∧ ¬ (room.reverse_order = true ∧ number ≥ room.last_number.getD (-1))))
    (h57 : number ≠ 57) (h1729 : number ≠ 1729)
    (hnp : is_prime_int rnd number = false)
    (hk : k = if room.rule.penalty_rule = PenaltyRule.ALWAYS_1 then 1 else played.length) :
    prime_play_stage2 rnd room pid played number
      = ⟨(next_turn (flow_field (penalty_draw pid k room))).1, Outcome.ok,
          Ev.penalty pid number :: (next_turn (flow_field (penalty_draw pid k room))).2⟩ := by
  have hstage3 : prime_play_stage3 rnd room pid played number
      = ⟨(next_turn (flow_field (penalty_draw pid k room))).1, Outcome.ok,
          Ev.penalty pid number :: (next_turn (flow_field (penalty_draw pid k room))).2⟩ := by
    unfold prime_play_stage3
    rw [if_neg h57, if_neg h1729,
      if_pos (show ¬ is_prime_int rnd number = true by rw [hnp]; simp)]
    dsimp only
    rw [← hk]
  unfold prime_play_stage2
  by_cases hfe : room.field.isEmpty
  · rw [if_pos hfe]
    exact hstage3
  · rcases hfield with hf | ⟨hlen, ho1, ho2⟩
    · exact absurd hf hfe
    · rw [if_neg hfe]
      rw [if_neg (show ¬ played.length ≠ room.field.length by simp [hlen])]
      dsimp only
      rw [if_neg ho1, if_neg ho2]
      exact hstage3

/-- C2 (amended): every prime-mode play — joker-free or joker-built, with
an empty or a non-empty field — whose built number is neither 57 nor 1729
and is not prime triggers the penalty path: the policy-sized prefix of the
deck is folded into the mover's hand, field and reserve are flushed to the
deck back clearing field and lastNumber, a penalty event is emitted, and
the room is handed to the turn rotation; in the standard two-duelist
configuration the turn passes to the opponent.  But the played cards are
NOT discarded: they stay in the mover's hand, which only grows (by the
drawn cards), while field and reserve end empty. -/
theorem C2_nonprime_play_penalty (rnd : List Nat) (room : Room) (pid : Nat)
    (player : Player) (d : PrimePlayData) (number : Int) (k : Nat)
    (hcur : room.current_turn_id = some pid)
    (hgp : room.getPlayer pid = some player)
    (hhc : has_cards player.hand d.cards = true)
    (hnotflush : ¬ ((d.cards.filter (fun c => c.suit == Suit.X)).length = 1
        ∧ d.cards.length = 1))
    (hgates : (d.cards.filter (fun c => c.suit == Suit.X)).length ≠ 0 →
        d.assigned_numbers.length = (d.cards.filter (fun c => c.suit == Suit.X)).length
          ∧ Assigned.inf ∉ d.assigned_numbers
          ∧ ¬ ((subst_ranks d.cards d.assigned_numbers).flatten.head? = some 0))
    (hnum : number = digits_number
        (if (d.cards.filter (fun c => c.suit == Suit.X)).length ≠ 0
          then (subst_ranks d.cards d.assigned_numbers).flatten
          else (d.cards.map (fun c => digits_of c.rank)).flatten))
    (hfield : room.field.isEmpty = true
      ∨ (d.cards.length = room.field.length
          ∧ ¬ ((!room.reverse_order) = true ∧ number ≤ room.last_number.getD (-1))
          ∧ ¬ (room.reverse_order = true ∧ number ≥ room.last_number.getD (-1))))
    (h57 : number ≠ 57) (h1729 : number ≠ 1729)
    (hnp : is_prime_int rnd number = false)
    (hk : k = if room.rule.penalty_rule = PenaltyRule.ALWAYS_1 then 1 else d.cards.length) :
    (play_card_prime rnd room pid d).out = Outcome.ok
      ∧ (∃ evs, (play_card_prime rnd room pid d).events = Ev.penalty pid number :: evs)
      ∧ (play_card_prime rnd room pid d).room.field = []
      ∧ (play_card_prime rnd room pid d).room.last_number = none
      ∧ (play_card_prime rnd room pid d).room.reserve = []
      ∧ (play_card_prime rnd room pid d).room.deck = room.deck.drop k ++ room.reserve
      ∧ (play_card_prime rnd room pid d).room.has_drawn = false
      ∧ (play_card_prime rnd room pid d).room.players
          = room.players.map (pd_update pid (room.deck.take k))
      ∧ (∃ player1, (play_card_prime rnd room pid d).room.getPlayer pid = some player1
          ∧ player1.id = player.id ∧ player1.status = player.status
          ∧ player1.name = player.name
          ∧ player1.hand.Perm (player.hand ++ room.deck.take k)
          ∧ (∀ c ∈ d.cards, c ∈ player1.hand))
      ∧ (∀ qA qB, room.players = [qA, qB] → pid = qA.id → qB.id ≠ qA.id →
          qA.status = PStatus.waiting → qB.status = PStatus.waiting → qA.hand ≠ [] →
          (play_card_prime rnd room pid d).room.current_turn_id = some qB.id
            ∧ (play_card_prime rnd room pid d).room.state = room.state
            ∧ (play_card_prime rnd room pid d).events = [Ev.penalty pid number]) := by
  have hplay : play_card_prime rnd room pid d
      = ⟨(next_turn { room with
            players := room.players.map (pd_update pid (room.deck.take k)),
            deck := room.deck.drop k ++ room.reserve,
            field := [], last_number := none, reserve := [] }).1, Outcome.ok,
          Ev.penalty pid number :: (next_turn { room with
            players := room.players.map (pd_update pid (room.deck.take k)),
            deck := room.deck.drop k ++ room.reserve,
            field := [], last_number := none, reserve := [] }).2⟩ := by
    have hs2 := stage2_penalty_spec rnd room pid d.cards number k hfield h57 h1729 hnp hk
    rw [penalty_draw_spec, flow_field_eq] at hs2
    unfold play_card_prime
    rw [if_neg (by rw [hcur]; simp)]
    unfold handle_prime_play
    rw [hgp]
    dsimp only
    rw [if_neg (by simp [hhc])]
    rcases hdc : d.cards with - | ⟨c1, cs⟩
    · rw [hdc] at hnum hs2
      simp only [List.filter_nil] at hnum ⊢
      rw [if_neg (show ¬ ((([] : List Card)).length ≠ 0) by simp)] at hnum
      rw [if_neg (show ¬ ((([] : List Card)).length ≠ 0) by simp)]
      rw [← hnum]
      exact hs2
    · rcases cs with - | ⟨c2, cs2⟩
      · rw [hdc] at hnotflush hnum hs2
        by_cases hx : c1.suit = Suit.X
        · exact absurd ⟨by simp [hx], by simp⟩ hnotflush
        · have hfilc : ([c1] : List Card).filter (fun c => c.suit == Suit.X) = [] := by
            simp [hx]
          simp only [hfilc] at hnum ⊢
          rw [if_neg (show ¬ ((([] : List Card)).length ≠ 0) by simp)] at hnum
          rw [if_neg (show ¬ ((([] : List Card)).length ≠ 0) by simp)]
          rw [← hnum]
          exact hs2
      · rw [hdc] at hgates hnum hs2
        cases hjk : (c1 :: c2 :: cs2).filter (fun c => c.suit == Suit.X) with
        | nil =>
          rw [hjk] at hnum
          dsimp only
          rw [if_neg (show ¬ ((([] : List Card)).length ≠ 0) by simp)] at hnum
          rw [if_neg (show ¬ ((([] : List Card)).length ≠ 0) by simp)]
          rw [← hnum]
          exact hs2
        | cons j js =>
          obtain ⟨hcnt, hinf, hhead⟩ := hgates (by rw [hjk]; simp)
          rw [hjk] at hcnt hnum
          rw [if_pos (show ((j :: js : List Card)).length ≠ 0 by simp)] at hnum
          cases js with
          | nil =>
            rw [if_pos (show (([j] : List Card)).length ≠ 0 by simp)]
            rw [if_neg (by simp [hcnt])]
            rw [if_neg hinf]
            dsimp only
            rw [if_neg hhead]
            rw [← hnum]
            exact hs2
          | cons j2 js2 =>
            rw [if_pos (show ((j :: j2 :: js2 : List Card)).length ≠ 0 by simp)]
            rw [if_neg (by simp [hcnt])]
            rw [if_neg hinf]
            dsimp only
            rw [if_neg hhead]
            rw [← hnum]
            exact hs2
  obtain ⟨hfp, hfd, hfr, hff, -, hfl⟩ := next_turn_fields { room with
    players := room.players.map (pd_update pid (room.deck.take k)),
    deck := room.deck.drop k ++ room.reserve,
    field := [], last_number := none, reserve := [] }
  have hpide : player.id = pid := by
    have h := List.find?_some (show room.players.find? (fun p => p.id == pid) = some player
      from hgp)
    simpa using h
  have hpdid : ∀ p, (pd_update pid (room.deck.take k) p).id = p.id := by
    intro p
    unfold pd_update
    split <;> rfl
  have hpdu : pd_update pid (room.deck.take k) player
      = { player with hand := (room.deck.take k).foldl add_card player.hand } := by
    unfold pd_update
    rw [if_pos hpide]
  refine ⟨by rw [hplay], ⟨_, by rw [hplay]⟩, ?_, ?_, ?_, ?_, ?_, ?_, ?_, ?_⟩
  · rw [hplay]
    exact hff
  · rw [hplay]
    exact hfl
  · rw [hplay]
    exact hfr
  · rw [hplay]
    exact hfd
  · rw [hplay]
    obtain ⟨ct, st, hnt2, -⟩ := next_turn_shape { room with
      players := room.players.map (pd_update pid (room.deck.take k)),
      deck := room.deck.drop k ++ room.reserve,
      field := [], last_number := none, reserve := [] }
    rw [show (⟨(next_turn { room with
        players := room.players.map (pd_update pid (room.deck.take k)),
        deck := room.deck.drop k ++ room.reserve,
        field := [], last_number := none, reserve := [] }).1, Outcome.ok,
        Ev.penalty pid number :: (next_turn { room with
        players := room.players.map (pd_update pid (room.deck.take k)),
        deck := room.deck.drop k ++ room.reserve,
        field := [], last_number := none, reserve := [] }).2⟩ : ActResult).room
      = (next_turn { room with
        players := room.players.map (pd_update pid (room.deck.take k)),
        deck := room.deck.drop k ++ room.reserve,
        field := [], last_number := none, reserve := [] }).1 from rfl, hnt2]
  · rw [hplay]
    exact hfp
  · refine ⟨pd_update pid (room.deck.take k) player, ?_, by rw [hpdu], by rw [hpdu],
      by rw [hpdu], ?_, ?_⟩
    · rw [hplay]
      show ((next_turn _).1.players).find? (fun p => p.id == pid) = _
      rw [hfp]
      exact find_map_id_pres pid _ hpdid room.players player hgp
    · rw [hpdu]
      exact foldl_add_card_perm _ player.hand
    · intro c hc
      rw [hpdu]
      have hcA : c ∈ player.hand := has_cards_mem d.cards player.hand hhc c hc
      exact (foldl_add_card_perm _ player.hand).mem_iff.mpr (List.mem_append_left _ hcA)
  · intro qA qB hps hpid hne hA hB hqa
    have hplayerA : player = qA := by
      unfold Room.getPlayer at hgp
      rw [hps] at hgp
      rw [List.find?_cons_of_pos _ (by simp [hpid])] at hgp
      injection hgp with h
      exact h.symm
    subst hplayerA
    have hq1 : pd_update pid (room.deck.take k) player
        = { player with hand := (room.deck.take k).foldl add_card player.hand } := hpdu
    have hpdB : pd_update pid (room.deck.take k) qB = qB := by
      unfold pd_update
      rw [if_neg (fun h => hne (h.trans hpid))]
    have hq1perm : ({ player with
        hand := (room.deck.take k).foldl add_card player.hand } : Player).hand.Perm
        (player.hand ++ room.deck.take k) := foldl_add_card_perm _ player.hand
    have hq1ne : ({ player with
        hand := (room.deck.take k).foldl add_card player.hand } : Player).hand ≠ [] := by
      intro habs
      have hlen := hq1perm.length_eq
      rw [habs] at hlen
      simp only [List.length_nil, List.length_append] at hlen
      have hz : player.hand.length = 0 := by omega
      exact hqa (List.length_eq_zero.mp hz)
    have hnt := next_turn_two_duelists
      { room with
          players := room.players.map (pd_update pid (room.deck.take k)),
          deck := room.deck.drop k ++ room.reserve,
          field := [], last_number := none, reserve := [] }
      { player with hand := (room.deck.take k).foldl add_card player.hand } qB
      (by show room.players.map (pd_update pid (room.deck.take k)) = _
          rw [hps]
          simp only [List.map_cons, List.map_nil, hq1, hpdB])
      hA hB
      (by show room.current_turn_id = _
          rw [hcur, hpid])
      hq1ne
    rw [hplay]
    rw [show (⟨(next_turn { room with
        players := room.players.map (pd_update pid (room.deck.take k)),
        deck := room.deck.drop k ++ room.reserve,
        field := [], last_number := none, reserve := [] }).1, Outcome.ok,
        Ev.penalty pid number :: (next_turn { room with
        players := room.players.map (pd_update pid (room.deck.take k)),
        deck := room.deck.drop k ++ room.reserve,
        field := [], last_number := none, reserve := [] }).2⟩ : ActResult)
      = ⟨(next_turn { room with
        players := room.players.map (pd_update pid (room.deck.take k)),
        deck := room.deck.drop k ++ room.reserve,
        field := [], last_number := none, reserve := [] }).1, Outcome.ok,
        Ev.penalty pid number :: (next_turn { room with
        players := room.players.map (pd_update pid (room.deck.take k)),
        deck := room.deck.drop k ++ room.reserve,
        field := [], last_number := none, reserve := [] }).2⟩ from rfl, hnt]
    exact ⟨rfl, rfl, rfl⟩

/-- C2 witness: the amended theorem at the concrete play of S1 (number 1,
not prime) in a two-duelist room with the `alwaysOne` penalty policy. -/
theorem C2_witness :
    (play_card_prime [] demo_room2 1 ⟨[cS1], []⟩).out = Outcome.ok
      ∧ (∃ evs, (play_card_prime [] demo_room2 1 ⟨[cS1], []⟩).events
          = Ev.penalty 1 1 :: evs)
      ∧ (play_card_prime [] demo_room2 1 ⟨[cS1], []⟩).room.field = []
      ∧ (play_card_prime [] demo_room2 1 ⟨[cS1], []⟩).room.last_number = none
      ∧ (play_card_prime [] demo_room2 1 ⟨[cS1], []⟩).room.reserve = []
      ∧ (play_card_prime [] demo_room2 1 ⟨[cS1], []⟩).room.deck
          = demo_room2.deck.drop 1 ++ demo_room2.reserve
      ∧ (play_card_prime [] demo_room2 1 ⟨[cS1], []⟩).room.has_drawn = false
      ∧ (play_card_prime [] demo_room2 1 ⟨[cS1], []⟩).room.players
          = demo_room2.players.map (pd_update 1 (demo_room2.deck.take 1))
      ∧ (∃ player1, (play_card_prime [] demo_room2 1 ⟨[cS1], []⟩).room.getPlayer 1
            = some player1
          ∧ player1.id = pA1.id ∧ player1.status = pA1.status
          ∧ player1.name = pA1.name
          ∧ player1.hand.Perm (pA1.hand ++ demo_room2.deck.take 1)
          ∧ (∀ c ∈ ([cS1] : List Card), c ∈ player1.hand))
      ∧ (∀ qA qB, demo_room2.players = [qA, qB] → 1 = qA.id → qB.id ≠ qA.id →
          qA.status = PStatus.waiting → qB.status = PStatus.waiting → qA.hand ≠ [] →
          (play_card_prime [] demo_room2 1 ⟨[cS1], []⟩).room.current_turn_id = some qB.id
            ∧ (play_card_prime [] demo_room2 1 ⟨[cS1], []⟩).room.state = demo_room2.state
            ∧ (play_card_prime [] demo_room2 1 ⟨[cS1], []⟩).events
                = [Ev.penalty 1 1]) :=
  C2_nonprime_play_penalty [] demo_room2 1 pA1 ⟨[cS1], []⟩ 1 1 rfl rfl (by decide)
    (by decide) (by decide) (by decide) (Or.inl rfl) (by decide) (by decide) (by decide) rfl

/-- The composite math-penalty path in full: outcome ok, a penalty event,
the policy-sized deck prefix folded into the drawing player's hand, the
rest of the deck keeping the flushed reserve, field and reserve cleared,
lastNumber erased — and, in the standard two-duelist configuration, the
turn handed to the opponent. -/
theorem composite_math_penalty_spec (room : Room) (pid : Nat) (sel : List Card) (n : Int) :
    (composite_math_penalty room pid sel n).out = Outcome.ok
      ∧ (∃ evs, (composite_math_penalty room pid sel n).events = Ev.penalty pid n :: evs)
      ∧ (composite_math_penalty room pid sel n).room.players
          = room.players.map (pd_update pid (room.deck.take
              (if room.rule.penalty_rule = PenaltyRule.ALWAYS_1 then 1 else sel.length)))
      ∧ (composite_math_penalty room pid sel n).room.deck
          = room.deck.drop
              (if room.rule.penalty_rule = PenaltyRule.ALWAYS_1 then 1 else sel.length)
            ++ room.reserve
      ∧ (composite_math_penalty room pid sel n).room.field = []
      ∧ (composite_math_penalty room pid sel n).room.reserve = []
      ∧ (composite_math_penalty room pid sel n).room.last_number = none
      ∧ (composite_math_penalty room pid sel n).room.has_drawn = false
      ∧ (∀ qA qB, room.players = [qA, qB] → room.current_turn_id = some qA.id →
          pid = qA.id → qB.id ≠ qA.id →
          qA.status = PStatus.waiting → qB.status = PStatus.waiting → qA.hand ≠ [] →
          (composite_math_penalty room pid sel n).room.current_turn_id = some qB.id
            ∧ (composite_math_penalty room pid sel n).room.state = room.state) := by
  have hcmp : composite_math_penalty room pid sel n
      = ⟨(next_turn { room with
            players := room.players.map (pd_update pid (room.deck.take
              (if room.rule.penalty_rule = PenaltyRule.ALWAYS_1 then 1 else sel.length))),
            deck := room.deck.drop
                (if room.rule.penalty_rule = PenaltyRule.ALWAYS_1 then 1 else sel.length)
              ++ room.reserve,
            field := [], last_number := none, reserve := [] }).1, Outcome.ok,
          Ev.penalty pid n :: (next_turn { room with
            players := room.players.map (pd_update pid (room.deck.take
              (if room.rule.penalty_rule = PenaltyRule.ALWAYS_1 then 1 else sel.length))),
            deck := room.deck.drop
                (if room.rule.penalty_rule = PenaltyRule.ALWAYS_1 then 1 else sel.length)
              ++ room.reserve,
            field := [], last_number := none, reserve := [] }).2⟩ := by
    unfold composite_math_penalty
    dsimp only
    rw [penalty_draw_spec, flow_field_eq]
  obtain ⟨hfp, hfd, hfr, hff, -, hfl⟩ := next_turn_fields { room with
    players := room.players.map (pd_update pid (room.deck.take
      (if room.rule.penalty_rule = PenaltyRule.ALWAYS_1 then 1 else sel.length))),
    deck := room.deck.drop
        (if room.rule.penalty_rule = PenaltyRule.ALWAYS_1 then 1 else sel.length)
      ++ room.reserve,
    field := [], last_number := none, reserve := [] }
  refine ⟨by rw [hcmp], ⟨_, by rw [hcmp]⟩, by rw [hcmp]; exact hfp, by rw [hcmp]; exact hfd,
    by rw [hcmp]; exact hff, by rw [hcmp]; exact hfr, by rw [hcmp]; exact hfl, ?_, ?_⟩
  · rw [hcmp]
    obtain ⟨ct, st, hnt2, -⟩ := next_turn_shape { room with
      players := room.players.map (pd_update pid (room.deck.take
        (if room.rule.penalty_rule = PenaltyRule.ALWAYS_1 then 1 else sel.length))),
      deck := room.deck.drop
          (if room.rule.penalty_rule = PenaltyRule.ALWAYS_1 then 1 else sel.length)
        ++ room.reserve,
      field := [], last_number := none, reserve := [] }
    rw [hnt2]
  · intro qA qB hps hcur hpid hne hA hB hqa
    have hq1 : pd_update pid (room.deck.take
        (if room.rule.penalty_rule = PenaltyRule.ALWAYS_1 then 1 else sel.length)) qA
        = { qA with hand := (room.deck.take
            (if room.rule.penalty_rule = PenaltyRule.ALWAYS_1 then 1
              else sel.length)).foldl add_card qA.hand } := by
      unfold pd_update
      rw [if_pos hpid.symm]
    have hpdB : pd_update pid (room.deck.take
        (if room.rule.penalty_rule = PenaltyRule.ALWAYS_1 then 1 else sel.length)) qB
        = qB := by
      unfold pd_update
      rw [if_neg (fun h => hne (h.trans hpid))]
    have hq1perm := foldl_add_card_perm (room.deck.take
      (if room.rule.penalty_rule = PenaltyRule.ALWAYS_1 then 1 else sel.length)) qA.hand
    have hq1ne : ({ qA with hand := (room.deck.take
        (if room.rule.penalty_rule = PenaltyRule.ALWAYS_1 then 1
          else sel.length)).foldl add_card qA.hand } : Player).hand ≠ [] := by
      intro habs
      have hlen := hq1perm.length_eq
      rw [show ({ qA with hand := (room.deck.take
          (if room.rule.penalty_rule = PenaltyRule.ALWAYS_1 then 1
            else sel.length)).foldl add_card qA.hand } : Player).hand
        = (room.deck.take (if room.rule.penalty_rule = PenaltyRule.ALWAYS_1 then 1
            else sel.length)).foldl add_card qA.hand from rfl] at habs
      rw [habs] at hlen
      simp only [List.length_nil, List.length_append] at hlen
      have hz : qA.hand.length = 0 := by omega
      exact hqa (List.length_eq_zero.mp hz)
    have hnt := next_turn_two_duelists
      { room with
          players := room.players.map (pd_update pid (room.deck.take
            (if room.rule.penalty_rule = PenaltyRule.ALWAYS_1 then 1 else sel.length))),
          deck := room.deck.drop
              (if room.rule.penalty_rule = PenaltyRule.ALWAYS_1 then 1 else sel.length)
            ++ room.reserve,
          field := [], last_number := none, reserve := [] }
      { qA with hand := (room.deck.take
          (if room.rule.penalty_rule = PenaltyRule.ALWAYS_1 then 1
            else sel.length)).foldl add_card qA.hand } qB
      (by show room.players.map _ = _
          rw [hps]
          simp only [List.map_cons, List.map_nil, hq1, hpdB])
      hA hB
      (by show room.current_turn_id = _
          rw [hcur])
      hq1ne
    rw [hcmp, hnt]
    exact ⟨rfl, rfl⟩

/-- C3 (amended): in composite mode, once the pre-checks pass, a syntax
failure of the token stream — and likewise a bare CompositeError such as a
leading-zero group or a base digit 0 — aborts the action with no change to
any Room or Player state (the error text is only reported to the sender),
while a math failure — a non-prime base of at least 2, an exponent or
folded exponent over the cap, or (separately checked after a successful
parse) a product that mismatches the selected play's number — triggers the
penalty draw into the mover's hand, flushes field and reserve to the deck
back, clears field and lastNumber, and hands the room to the turn rotation
(in the standard two-duelist configuration the turn passes to the
opponent).  A base of 0 or 1, contrary to the claim, falls in the first
class: it aborts with no penalty. -/
theorem C3_composite_error_handling (rnd : List Nat) (room : Room) (pid : Nat)
    (d : CompositeData) (player : Player) (tcr : List (Nat × Nat))
    (sel_ranks : List JVal) (msg : String) (sel_number : Int)
    (hp : room.getPlayer pid = some player)
    (hhc : has_cards player.hand (dedup_by_id (d.sel_cards ++ d.con_cards)) = true)
    (hmap : map_joker_values_in_cards d.sel_cards d.sel_assigned false = .ok sel_ranks)
    (hcount : ¬ (comp_joker_count player.hand d.comp_tokens ≠ d.comp_assigned.length
        ∨ Assigned.inf ∈ d.comp_assigned))
    (htcr : build_tcr player.hand d.comp_assigned d.comp_tokens 0 = .ok tcr)
    (hsize : ¬ (¬ room.field.isEmpty = true ∧ d.sel_cards.length ≠ room.field.length))
    (hzero : ¬ ((sel_ranks.map jval_digits).flatten.head? = some 0))
    (hsel : sel_number = digits_number ((sel_ranks.map jval_digits).flatten))
    (horder : ¬ (¬ room.field.isEmpty = true ∧
        (((!room.reverse_order) = true ∧ sel_number ≤ room.last_number.getD (-1))
          ∨ (room.reverse_order = true ∧ sel_number ≥ room.last_number.getD (-1))))) :
    (parse_and_eval_composite rnd d.comp_tokens tcr = .error (.syn msg) →
        handle_composite_play rnd room pid d = ⟨room, .err msg, []⟩)
      ∧ (parse_and_eval_composite rnd d.comp_tokens tcr = .error (.plain msg) →
        handle_composite_play rnd room pid d = ⟨room, .err msg, []⟩)
      ∧ ((parse_and_eval_composite rnd d.comp_tokens tcr = .error (.math msg)
            ∨ (∃ number cids, parse_and_eval_composite rnd d.comp_tokens tcr
                  = .ok (number, cids) ∧ (number : Int) ≠ sel_number)) →
          (handle_composite_play rnd room pid d).out = Outcome.ok
          ∧ (∃ evs, (handle_composite_play rnd room pid d).events
              = Ev.penalty pid sel_number :: evs)
          ∧ (handle_composite_play rnd room pid d).room.players
              = room.players.map (pd_update pid (room.deck.take
                  (if room.rule.penalty_rule = PenaltyRule.ALWAYS_1 then 1
                    else d.sel_cards.length)))
          ∧ (handle_composite_play rnd room pid d).room.deck
              = room.deck.drop
                  (if room.rule.penalty_rule = PenaltyRule.ALWAYS_1 then 1
                    else d.sel_cards.length)
                ++ room.reserve
          ∧ (handle_composite_play rnd room pid d).room.field = []
          ∧ (handle_composite_play rnd room pid d).room.reserve = []
          ∧ (handle_composite_play rnd room pid d).room.last_number = none
          ∧ (handle_composite_play rnd room pid d).room.has_drawn = false
          ∧ (∀ qA qB, room.players = [qA, qB] → room.current_turn_id = some qA.id →
              pid = qA.id → qB.id ≠ qA.id →
              qA.status = PStatus.waiting → qB.status = PStatus.waiting → qA.hand ≠ [] →
              (handle_composite_play rnd room pid d).room.current_turn_id = some qB.id
                ∧ (handle_composite_play rnd room pid d).room.state = room.state)) := by
  unfold handle_composite_play
  rw [hp]
  dsimp only
  rw [if_neg (by simp [hhc])]
  rw [hmap]
  dsimp only
  rw [if_neg hcount]
  rw [htcr]
  dsimp only
  rw [if_neg hsize]
  rw [if_neg hzero]
  rw [← hsel]
  rw [if_neg horder]
  refine ⟨?_, ?_, ?_⟩
  · intro h
    rw [h]
  · intro h
    rw [h]
  · intro h
    rcases h with hm | ⟨number, cids, hok, hne⟩
    · rw [hm]
      exact composite_math_penalty_spec room pid d.sel_cards sel_number
    · rw [hok]
      dsimp only
      rw [if_pos hne]
      exact composite_math_penalty_spec room pid d.sel_cards sel_number

/-- C3 witness: the theorem at a concrete composite play of H4 proved by
the single token H4 — base 4 is not prime, a math error, so the penalty
path runs. -/
theorem C3_witness :
    ((parse_and_eval_composite [] [Token.card 16] [(16, 4)]
          = .error (.syn "底が素数ではありません。") →
        handle_composite_play [] demo_room4 1 ⟨[cH4], [], [Token.card 16], [], []⟩
          = ⟨demo_room4, .err "底が素数ではありません。", []⟩)
      ∧ (parse_and_eval_composite [] [Token.card 16] [(16, 4)]
          = .error (.plain "底が素数ではありません。") →
        handle_composite_play [] demo_room4 1 ⟨[cH4], [], [Token.card 16], [], []⟩
          = ⟨demo_room4, .err "底が素数ではありません。", []⟩)
      ∧ ((parse_and_eval_composite [] [Token.card 16] [(16, 4)]
            = .error (.math "底が素数ではありません。")
          ∨ (∃ number cids, parse_and_eval_composite [] [Token.card 16] [(16, 4)]
                = .ok (number, cids) ∧ (number : Int) ≠ 4)) →
          (handle_composite_play [] demo_room4 1 ⟨[cH4], [], [Token.card 16], [], []⟩).out
              = Outcome.ok
          ∧ (∃ evs, (handle_composite_play [] demo_room4 1
                ⟨[cH4], [], [Token.card 16], [], []⟩).events
              = Ev.penalty 1 4 :: evs)
          ∧ (handle_composite_play [] demo_room4 1
                ⟨[cH4], [], [Token.card 16], [], []⟩).room.players
              = demo_room4.players.map (pd_update 1 (demo_room4.deck.take
                  (if demo_room4.rule.penalty_rule = PenaltyRule.ALWAYS_1 then 1
                    else ([cH4] : List Card).length)))
          ∧ (handle_composite_play [] demo_room4 1
                ⟨[cH4], [], [Token.card 16], [], []⟩).room.deck
              = demo_room4.deck.drop
                  (if demo_room4.rule.penalty_rule = PenaltyRule.ALWAYS_1 then 1
                    else ([cH4] : List Card).length)
                ++ demo_room4.reserve
          ∧ (handle_composite_play [] demo_room4 1
              ⟨[cH4], [], [Token.card 16], [], []⟩).room.field = []
          ∧ (handle_composite_play [] demo_room4 1
              ⟨[cH4], [], [Token.card 16], [], []⟩).room.reserve = []
          ∧ (handle_composite_play [] demo_room4 1
              ⟨[cH4], [], [Token.card 16], [], []⟩).room.last_number = none
          ∧ (handle_composite_play [] demo_room4 1
              ⟨[cH4], [], [Token.card 16], [], []⟩).room.has_drawn = false
          ∧ (∀ qA qB, demo_room4.players = [qA, qB] →
              demo_room4.current_turn_id = some qA.id →
              1 = qA.id → qB.id ≠ qA.id →
              qA.status = PStatus.waiting → qB.status = PStatus.waiting → qA.hand ≠ [] →
              (handle_composite_play [] demo_room4 1
                  ⟨[cH4], [], [Token.card 16], [], []⟩).room.current_turn_id = some qB.id
                ∧ (handle_composite_play [] demo_room4 1
                    ⟨[cH4], [], [Token.card 16], [], []⟩).room.state
                  = demo_room4.state))) :=
  C3_composite_error_handling [] demo_room4 1 ⟨[cH4], [], [Token.card 16], [], []⟩
    pA4 [(16, 4)] [JVal.num 4] "底が素数ではありません。" 4
    rfl (by decide) rfl (by decide) rfl (by decide) (by decide) (by decide) (by decide)

theorem fold_exps_spec (exps : List Nat) :
    ∀ v, fold_exps exps = .ok v →
      v = spec_fold_exps exps
        ∧ (∀ e ∈ exps, e ≤ MAX_EXP)
        ∧ (∀ i < exps.length, spec_fold_exps (exps.drop i) ≤ MAX_EXP) := by
  induction exps with
  | nil =>
    intro v hv
    unfold fold_exps at hv
    injection hv with hv
    refine ⟨hv.symm, by simp, by simp⟩
  | cons e rest ih =>
    intro v hv
    unfold fold_exps at hv
    cases hacc : fold_exps rest with
    | error err =>
      rw [hacc] at hv
      simp at hv
    | ok acc =>
      rw [hacc] at hv
      dsimp only at hv
      by_cases he : e > MAX_EXP
      · rw [if_pos he] at hv
        simp at hv
      · rw [if_neg he] at hv
        by_cases hacc2 : e ^ acc > MAX_EXP
        · rw [if_pos hacc2] at hv
          simp at hv
        · rw [if_neg hacc2] at hv
          injection hv with hv
          obtain ⟨hspec, hall, hdrops⟩ := ih acc hacc
          have hfold : spec_fold_exps (e :: rest) = e ^ acc := by
            unfold spec_fold_exps
            rw [List.foldr_cons]
            unfold spec_fold_exps at hspec
            rw [← hspec]
          refine ⟨by rw [hfold, hv], ?_, ?_⟩
          · intro x hx
            rcases List.mem_cons.mp hx with rfl | hx2
            · omega
            · exact hall x hx2
          · intro i hi
            cases i with
            | zero =>
              simpa [hfold] using hacc2
            | succ j =>
              simp only [List.drop_succ_cons]
              exact hdrops j (by simpa using hi)

theorem eval_chunk_spec (rnd : List Nat) (tcr : List (Nat × Nat)) (ch : List Token)
    (v : Nat) (ids : List Nat) (h : eval_chunk rnd tcr ch = .ok (v, ids)) :
    ∃ seqs cids base exps,
      chunk_seqs tcr ch = .ok (seqs, cids)
        ∧ build_ints seqs = .ok (base :: exps)
        ∧ 2 ≤ base ∧ is_prime rnd base = true
        ∧ (∀ e ∈ exps, e ≤ MAX_EXP)
        ∧ (∀ i < exps.length, spec_fold_exps (exps.drop i) ≤ MAX_EXP)
        ∧ v = base ^ spec_fold_exps exps ∧ ids = cids := by
  unfold eval_chunk at h
  cases hcs : chunk_seqs tcr ch with
  | error e =>
    rw [hcs] at h
    simp at h
  | ok sc =>
    rw [hcs] at h
    obtain ⟨seqs, cids⟩ := sc
    dsimp only at h
    cases hbi : build_ints seqs with
    | error e =>
      rw [hbi] at h
      simp at h
    | ok ints =>
      rw [hbi] at h
      cases ints with
      | nil => simp at h
      | cons base exps =>
        dsimp only at h
        by_cases hb2 : base < 2
        · rw [if_pos hb2] at h
          simp at h
        · rw [if_neg hb2] at h
          by_cases hbp : ¬ is_prime rnd base
          · rw [if_pos hbp] at h
            simp at h
          · rw [if_neg hbp] at h
            cases hfe : fold_exps exps with
            | error e =>
              rw [hfe] at h
              simp at h
            | ok exp =>
              rw [hfe] at h
              injection h with h
              obtain ⟨hspec, hall, hdrops⟩ := fold_exps_spec exps exp hfe
              have hv : v = base ^ spec_fold_exps exps := by
                rw [← hspec]
                exact (congrArg Prod.fst h).symm
              have hids : ids = cids := (congrArg Prod.snd h).symm
              exact ⟨seqs, cids, base, exps, rfl, hbi, by omega,
                by simpa using hbp, hall, hdrops, hv, hids⟩

theorem eval_chunks_spec (rnd : List Nat) (tcr : List (Nat × Nat)) :
    ∀ (chs : List (List Token)) (v : Nat) (ids : List Nat),
      eval_chunks rnd tcr chs = .ok (v, ids) →
      ∃ cvs : List (Nat × List Nat),
        List.Forall₂ (fun ch cv => eval_chunk rnd tcr ch = .ok cv) chs cvs
          ∧ v = (cvs.map Prod.fst).prod
          ∧ ids = (cvs.map Prod.snd).flatten := by
  intro chs
  induction chs with
  | nil =>
    intro v ids h
    unfold eval_chunks at h
    injection h with h
    refine ⟨[], List.Forall₂.nil, ?_, ?_⟩
    · simpa using (congrArg Prod.fst h).symm
    · simpa using (congrArg Prod.snd h).symm
  | cons ch rest ih =>
    intro v ids h
    unfold eval_chunks at h
    cases h1 : eval_chunk rnd tcr ch with
    | error e =>
      rw [h1] at h
      simp at h
    | ok r1 =>
      rw [h1] at h
      cases h2 : eval_chunks rnd tcr rest with
      | error e =>
        rw [h2] at h
        simp at h
      | ok r2 =>
        rw [h2] at h
        dsimp only at h
        injection h with h
        obtain ⟨cvs, hf, hv2, hids2⟩ := ih r2.1 r2.2 (by rw [h2])
        refine ⟨r1 :: cvs, List.Forall₂.cons h1 hf, ?_, ?_⟩
        · have := (congrArg Prod.fst h).symm
          dsimp only at this
          rw [this, List.map_cons, List.prod_cons, ← hv2]
        · have := (congrArg Prod.snd h).symm
          dsimp only at this
          rw [this, List.map_cons, List.flatten_cons, ← hids2]

theorem parse_and_eval_spec (rnd : List Nat) (tokens : List Token)
    (tcr : List (Nat × Nat)) (v : Nat) (ids : List Nat)
    (h : parse_and_eval_composite rnd tokens tcr = .ok (v, ids)) :
    ∃ chunks, split_chunks tokens = .ok chunks
      ∧ eval_chunks rnd tcr chunks = .ok (v, ids) := by
  unfold parse_and_eval_composite at h
  cases hh : tokens.head? with
  | none =>
    rw [hh] at h
    simp at h
  | some t0 =>
    rw [hh] at h
    cases hl : tokens.getLast? with
    | none =>
      rw [hl] at h
      simp at h
    | some t1 =>
      rw [hl] at h
      dsimp only at h
      by_cases hcard : ¬ (is_card t0 = true ∧ is_card t1 = true)
      · rw [if_pos hcard] at h
        simp at h
      · rw [if_neg hcard] at h
        by_cases hclash : syntax_clash tokens
        · rw [if_pos hclash] at h
          simp at h
        · rw [if_neg hclash] at h
          cases hsp : split_chunks tokens with
          | error e =>
            rw [hsp] at h
            simp at h
          | ok chunks =>
            rw [hsp] at h
            exact ⟨chunks, rfl, h⟩

/-- C4: for every token stream the evaluator accepts, the stream splits on
`×` into chunks; the accepted value is the product of the chunk values, and
each chunk value is its (prime, ≥ 2) base raised to the right-associative
fold of its exponent groups, every individual exponent and every
intermediate fold (the final one included) being at most `MAX_EXP` = 12.
In particular the tower `2^2^3` evaluates to `2^(2^3) = 256` and not to
`(2^2)^3 = 64`. -/
theorem C4_composite_evaluation (rnd : List Nat) (tokens : List Token)
    (tcr : List (Nat × Nat)) (v : Nat) (ids : List Nat)
    (h : parse_and_eval_composite rnd tokens tcr = .ok (v, ids)) :
    (∃ chunks cvs,
        split_chunks tokens = .ok chunks
          ∧ v = (cvs.map Prod.fst).prod
          ∧ ids = (cvs.map Prod.snd).flatten
          ∧ List.Forall₂ (fun ch cv =>
              eval_chunk rnd tcr ch = .ok cv
                ∧ ∃ seqs cids base exps,
                    chunk_seqs tcr ch = .ok (seqs, cids)
                      ∧ build_ints seqs = .ok (base :: exps)
                      ∧ 2 ≤ base ∧ is_prime rnd base = true
                      ∧ (∀ e ∈ exps, e ≤ MAX_EXP)
                      ∧ (∀ i < exps.length, spec_fold_exps (exps.drop i) ≤ MAX_EXP)
                      ∧ cv.1 = base ^ spec_fold_exps exps ∧ cv.2 = cids)
            chunks cvs)
      ∧ parse_and_eval_composite [] tower_tokens tower_tcr = .ok (256, [10, 11, 12])
      ∧ (256 : Nat) = 2 ^ (2 ^ 3) ∧ ((2 ^ 2) ^ 3 : Nat) = 64 ∧ (256 : Nat) ≠ 64 := by
  refine ⟨?_, by rfl, by decide, by decide, by decide⟩
  obtain ⟨chunks, hsp, hev⟩ := parse_and_eval_spec rnd tokens tcr v ids h
  obtain ⟨cvs, hf, hv, hids⟩ := eval_chunks_spec rnd tcr chunks v ids hev
  refine ⟨chunks, cvs, hsp, hv, hids, ?_⟩
  refine hf.imp ?_
  intro ch cv hcv
  have hspec := eval_chunk_spec rnd tcr ch cv.1 cv.2 (by rw [hcv])
  exact ⟨hcv, hspec⟩

/-- C4 witness: the theorem at the concrete tower `2^2^3`. -/
theorem C4_witness :
    ((∃ chunks cvs,
        split_chunks tower_tokens = .ok chunks
          ∧ 256 = (cvs.map Prod.fst).prod
          ∧ [10, 11, 12] = (cvs.map Prod.snd).flatten
          ∧ List.Forall₂ (fun ch cv =>
              eval_chunk [] tower_tcr ch = .ok cv
                ∧ ∃ seqs cids base exps,
                    chunk_seqs tower_tcr ch = .ok (seqs, cids)
                      ∧ build_ints seqs = .ok (base :: exps)
                      ∧ 2 ≤ base ∧ is_prime [] base = true
                      ∧ (∀ e ∈ exps, e ≤ MAX_EXP)
                      ∧ (∀ i < exps.length, spec_fold_exps (exps.drop i) ≤ MAX_EXP)
                      ∧ cv.1 = base ^ spec_fold_exps exps ∧ cv.2 = cids)
            chunks cvs)
      ∧ parse_and_eval_composite [] tower_tokens tower_tcr = .ok (256, [10, 11, 12])
      ∧ (256 : Nat) = 2 ^ (2 ^ 3) ∧ ((2 ^ 2) ^ 3 : Nat) = 64 ∧ (256 : Nat) ≠ 64) :=
  C4_composite_evaluation [] tower_tokens tower_tcr 256 [10, 11, 12] rfl

/-- C8 (amended): `evenHalved` deterministically removes exactly the
even-rank D/H cards — a fixed half (12 of 24) of the even-rank non-joker
cards, independent of the random source — before the final shuffle; all
odd-rank cards, all even S/C cards, and both Jokers are retained.  (The
claim's "chosen uniformly at random" fails: the removed subset never
varies.) -/
theorem C8_even_halved_removes_DH_evens (fresh : Nat) (sh1 sh2 : List Card → List Card)
    (h1 : ∀ l, (sh1 l).Perm l) (h2 : ∀ l, (sh2 l).Perm l)
    (rule : RulePreset) (hr : rule.deck_rule = DeckRule.EVEN_HALVED) :
    (build_deck fresh sh1 sh2 rule).Perm
        ((base_deck fresh).filter (fun c => !(even_halved_removed c)))
      ∧ 2 * ((base_deck fresh).filter even_halved_removed).length
          = ((base_deck fresh).filter (fun c => !c.is_joker && c.rank % 2 == 0)).length
      ∧ (∀ c ∈ base_deck fresh, (c.rank % 2 = 1 ∨ c.is_joker = true) →
          c ∈ build_deck fresh sh1 sh2 rule) := by
  have hperm := build_deck_even_halved_perm fresh sh1 sh2 h1 h2 rule hr
  refine ⟨hperm, ?_, ?_⟩
  · rw [(even_halved_counts fresh).1, (even_halved_counts fresh).2]
  · intro c hc hodd
    have hmem : c ∈ (base_deck fresh).filter (fun c => !(even_halved_removed c)) := by
      rw [List.mem_filter]
      refine ⟨hc, ?_⟩
      unfold even_halved_removed
      rcases hodd with h | h
      · simp [h]
      · simp [h]
    exact hperm.mem_iff.mpr hmem

/-- C8 witness: the theorem instantiated with identity shuffles and the
`half-5-n` preset at id base 0. -/
theorem C8_witness :
    (build_deck 0 id id ⟨"half-5-n", "偶数半減: 5枚 / 同数", DeckRule.EVEN_HALVED, 5,
          PenaltyRule.SAME_AS_PLAYED⟩).Perm
        ((base_deck 0).filter (fun c => !(even_halved_removed c)))
      ∧ 2 * ((base_deck 0).filter even_halved_removed).length
          = ((base_deck 0).filter (fun c => !c.is_joker && c.rank % 2 == 0)).length
      ∧ (∀ c ∈ base_deck 0, (c.rank % 2 = 1 ∨ c.is_joker = true) →
          c ∈ build_deck 0 id id ⟨"half-5-n", "偶数半減: 5枚 / 同数", DeckRule.EVEN_HALVED, 5,
            PenaltyRule.SAME_AS_PLAYED⟩) :=
  C8_even_halved_removes_DH_evens 0 id id (fun l => List.Perm.refl l)
    (fun l => List.Perm.refl l)
    ⟨"half-5-n", "偶数半減: 5枚 / 同数", DeckRule.EVEN_HALVED, 5, PenaltyRule.SAME_AS_PLAYED⟩ rfl

/-- C8 counterexample: a uniformly random removal of half the even cards
would remove the 2 of spades with positive probability, but no permuting
random source ever removes it — the removed subset is deterministic, so the
claimed uniform random choice is refuted. -/
theorem C8_counterexample :
    ¬ ∃ (sh1 sh2 : { f : List Card → List Card // ∀ l, (f l).Perm l }),
        cS2 ∉ build_deck 0 sh1.1 sh2.1
          ⟨"half-5-n", "偶数半減: 5枚 / 同数", DeckRule.EVEN_HALVED, 5,
            PenaltyRule.SAME_AS_PLAYED⟩ := by
  rintro ⟨sh1, sh2, hnot⟩
  apply hnot
  have hperm := build_deck_even_halved_perm 0 sh1.1 sh2.1 sh1.2 sh2.2
    ⟨"half-5-n", "偶数半減: 5枚 / 同数", DeckRule.EVEN_HALVED, 5, PenaltyRule.SAME_AS_PLAYED⟩ rfl
  refine hperm.mem_iff.mpr ?_
  decide

/-- C10: the claim asserts room construction at process start is total, with
every preset key referenced by `ROOM_CONFIG` (including "half-7-1") present
in `PRESETS`.  The code refutes it: "half-7-1" is not a key of `PRESETS`, so
building the room table fails its key lookup (a `KeyError` at import time in
the source). -/
theorem C10_room_config_lookup_fails :
    preset_lookup "half-7-1" = none ∧ build_room_config = none := by
  constructor <;> rfl

/-- C5: for every integer `0 ≤ n ≤ 10000` and any random witness draw,
`is_prime` agrees with trial division, which is true exactly on the primes
(the numbers with precisely two positive divisors); in particular it is
false for every `n < 2`. -/
theorem C5_is_prime_matches_trial_division (rnd : List Nat) (n : Nat) (h : n ≤ 10000) :
    is_prime rnd n = trial_division n
      ∧ (trial_division n = true ↔ Nat.Prime n)
      ∧ (n < 2 → is_prime rnd n = false) := by
  refine ⟨is_prime_eq_trial_division rnd n h, trial_division_iff_prime n, ?_⟩
  intro h2
  unfold is_prime
  rw [if_pos h2]

/-- C5 witness: the theorem instantiated at the concrete input 9973. -/
theorem C5_witness :
    is_prime [] 9973 = trial_division 9973
      ∧ (trial_division 9973 = true ↔ Nat.Prime 9973)
      ∧ (9973 < 2 → is_prime [] 9973 = false) :=
  C5_is_prime_matches_trial_division [] 9973 (by decide)

/-- C6: the claim says prime-mode validation errors (malformed
joker-assignment count, wrong ordering, ...) are reported only to the
requesting session and are never fatal.  In the code those replies go
through the undefined name `websocket`, raising an uncaught `NameError`
that kills the sender's websocket task: at this concrete input (A plays
Joker + S7 with no joker assignment, then A plays S1 below a field of 3)
the handler crashes instead of replying, though indeed without mutating the
room. -/
theorem C6_validation_error_is_fatal_crash :
    (play_card_prime [] demo_room 1 ⟨[cJ, cS7], []⟩).out = nameError
      ∧ (play_card_prime [] demo_room 1 ⟨[cJ, cS7], []⟩).room = demo_room
      ∧ (play_card_prime [] demo_room_f 1 ⟨[cS1], []⟩).out = nameError
      ∧ (play_card_prime [] demo_room_f 1 ⟨[cS1], []⟩).room = demo_room_f := by
  refine ⟨rfl, rfl, rfl, rfl⟩

/-- C7 counterexample: the claim says the flush path is taken *exactly* when
the single played Joker carries the sentinel "infinite".  Here the single
Joker carries the numeric assignment 7, yet the flush path is still taken
(the events log the infinity flush and nothing is placed on the field). -/
theorem C7_counterexample :
    (handle_prime_play [] demo_room 1 ⟨[cJ], [Assigned.num 7]⟩).events
        = [Ev.infinity_flush 1]
      ∧ (handle_prime_play [] demo_room 1 ⟨[cJ], [Assigned.num 7]⟩).room.field = []
      ∧ (handle_prime_play [] demo_room 1 ⟨[cJ], [Assigned.num 7]⟩).room.last_number = none := by
  refine ⟨rfl, rfl, rfl⟩

/-- C2 counterexample: the claim says a non-prime play's cards are discarded
so that afterwards they are in none of hand/deck/field/reserve.  Here A
plays S1 (the number 1, not prime): the penalty fires, yet S1 is still in
A's hand afterwards. -/
theorem C2_counterexample :
    ∃ p, (handle_prime_play [] demo_room2 1 ⟨[cS1], []⟩).room.getPlayer 1 = some p
      ∧ cS1 ∈ p.hand
      ∧ (handle_prime_play [] demo_room2 1 ⟨[cS1], []⟩).events.head?
          = some (Ev.penalty 1 1) := by
  refine ⟨⟨1, "A", PStatus.waiting, [cS1, cS3, cS7]⟩, ?_, ?_, ?_⟩ <;> decide

/-- C9 counterexample: the claim says that when exactly one duelist remains
after a departure the duelist wins even if spectators are still present.
Here duelist A leaves a room containing duelist B and spectator S: no
game-over is emitted and the room stays in the playing state. -/
theorem C9_counterexample :
    (leave_room demo_room9 1).2 = [] ∧ (leave_room demo_room9 1).1.state = RState.playing := by
  constructor <;> rfl

/-- C3 counterexample: the claim classifies a base of 0 or 1 as a math
failure that triggers the penalty draw and consumes the turn.  In the code a
base below 2 raises `CompositeSyntaxError`: the action aborts with an error
reply, no penalty, no state change, no events. -/
theorem C3_counterexample :
    handle_composite_play [] demo_room2 1 ⟨[cS1], [], [Token.card 0], [], []⟩
      = ⟨demo_room2, Outcome.err "底が1桁0/1は不可です。", []⟩ := by
  rfl

/-! ## C1: conservation machinery -/

theorem card_ids_append (a b : List Card) :
    card_ids (a ++ b) = card_ids a ++ card_ids b := by
  unfold card_ids
  exact List.map_append _ a b

theorem hands_ids_append (a b : List Player) :
    hands_ids (a ++ b) = hands_ids a ++ hands_ids b := by
  unfold hands_ids
  rw [List.map_append, List.flatten_append]

theorem hands_ids_cons (p : Player) (l : List Player) :
    hands_ids (p :: l) = hand_ids p ++ hands_ids l := by
  unfold hands_ids
  rw [List.map_cons, List.flatten_cons]

theorem flatten_sublist {l₁ l₂ : List (List Nat)} (h : l₁.Sublist l₂) :
    l₁.flatten.Sublist l₂.flatten := by
  induction h with
  | slnil => exact List.Sublist.refl _
  | cons a _ ih =>
    rw [List.flatten_cons]
    exact ih.trans (List.sublist_append_right a _)
  | cons₂ a _ ih =>
    rw [List.flatten_cons, List.flatten_cons]
    exact ih.append_left a

/-- In a player list with pairwise-distinct ids, `find?` on a member's id
returns that member. -/
theorem find_id_of_mem :
    ∀ (l : List Player), (l.map (fun p => p.id)).Nodup →
      ∀ p ∈ l, l.find? (fun q => q.id == p.id) = some p := by
  intro l
  induction l with
  | nil => intro _ p hp; cases hp
  | cons a l ih =>
    intro hnd p hp
    have hnd' : (∀ x ∈ l, ¬ x.id = a.id) ∧ (l.map (fun p => p.id)).Nodup := by
      simpa using hnd
    rcases List.mem_cons.mp hp with rfl | hp
    · rw [List.find?_cons_of_pos _ (by simp)]
    · have ha : a.id ≠ p.id := fun he => hnd'.1 p hp he.symm
      rw [List.find?_cons_of_neg _ (by simpa using ha)]
      exact ih hnd'.2 p hp

/-- `modifyPlayer`'s map, on players with distinct ids containing the
target, rewrites exactly the target's entry. -/
theorem modify_map_eq (pid : Nat) (g : Player → Player) :
    ∀ (l : List Player), (l.map (fun p => p.id)).Nodup →
      ∀ player, l.find? (fun p => p.id == pid) = some player →
        ∃ l₁ l₂, l = l₁ ++ player :: l₂
          ∧ l.map (fun p => if p.id = pid then g p else p) = l₁ ++ g player :: l₂ := by
  intro l
  induction l with
  | nil => intro _ player h; simp [List.find?] at h
  | cons a l ih =>
    intro hnd player hf
    have hnd' : (∀ x ∈ l, ¬ x.id = a.id) ∧ (l.map (fun p => p.id)).Nodup := by
      simpa using hnd
    by_cases ha : a.id = pid
    · rw [List.find?_cons_of_pos _ (by simpa using ha)] at hf
      injection hf with hf
      subst hf
      refine ⟨[], l, rfl, ?_⟩
      have hrest : ∀ q ∈ l, ¬ q.id = pid := by
        intro q hq he
        exact hnd'.1 q hq (he.trans ha.symm)
      simp only [List.map_cons, if_pos ha, List.nil_append]
      congr 1
      calc l.map (fun p => if p.id = pid then g p else p)
          = l.map id := List.map_congr_left (fun q hq => by rw [if_neg (hrest q hq)]; rfl)
        _ = l := List.map_id l
    · rw [List.find?_cons_of_neg _ (by simpa using ha)] at hf
      obtain ⟨l₁, l₂, he, hm⟩ := ih hnd'.2 player hf
      refine ⟨a :: l₁, l₂, by rw [List.cons_append, ← he], ?_⟩
      simp only [List.map_cons, if_neg ha, List.cons_append, hm]

/-- When nobody has the id, `modifyPlayer`'s map is the identity. -/
theorem modify_map_none (pid : Nat) (g : Player → Player) (l : List Player)
    (h : l.find? (fun p => p.id == pid) = none) :
    l.map (fun p => if p.id = pid then g p else p) = l := by
  have hno := List.find?_eq_none.mp h
  calc l.map (fun p => if p.id = pid then g p else p)
      = l.map id := List.map_congr_left (fun q hq => by
        rw [if_neg (by simpa using hno q hq)]; rfl)
    _ = l := List.map_id l

/-- `modifyPlayer`'s map never changes the id sequence (for id-preserving
updates). -/
theorem map_modify_ids (pid : Nat) (g : Player → Player) (hg : ∀ p, (g p).id = p.id)
    (l : List Player) :
    (l.map (fun p => if p.id = pid then g p else p)).map (fun p => p.id)
      = l.map (fun p => p.id) := by
  rw [List.map_map]
  apply List.map_congr_left
  intro a _
  show (if a.id = pid then g a else a).id = a.id
  by_cases h : a.id = pid
  · rw [if_pos h]; exact hg a
  · rw [if_neg h]

/-- If the tracked id multiset only shrinks, the player list only loses
entries, and the new field sits inside the new reserve, the invariant
carries over. -/
theorem conserve_of_le (room r' : Room) (hinv : conserve_inv room)
    (hall : ((all_ids r' : List Nat) : Multiset Nat) ≤ ((all_ids room : List Nat) : Multiset Nat))
    (hpids : (player_ids r').Sublist (player_ids room))
    (hF : ∀ c ∈ r'.field, c ∈ r'.reserve) : conserve_inv r' := by
  refine ⟨?_, hF, List.Nodup.sublist hpids hinv.2.2⟩
  exact Multiset.coe_nodup.mp
    (Multiset.nodup_of_le hall (Multiset.coe_nodup.mpr hinv.1))

/-- Preservation for actions that keep the player list and only rearrange
or shrink deck and reserve. -/
theorem conserve_containers (room r' : Room)
    (hp : r'.players = room.players)
    (hDR : ((card_ids r'.deck : List Nat) : Multiset Nat) + (card_ids r'.reserve : List Nat)
        ≤ ((card_ids room.deck : List Nat) : Multiset Nat) + (card_ids room.reserve : List Nat))
    (hF : ∀ c ∈ r'.field, c ∈ r'.reserve)
    (hinv : conserve_inv room) : conserve_inv r' := by
  refine conserve_of_le room r' hinv ?_ (by unfold player_ids; rw [hp]) hF
  unfold all_ids
  rw [hp]
  simp only [← Multiset.coe_add]
  rw [add_assoc, add_assoc]
  exact add_le_add_left hDR _

/-- Rewrites that keep all four containers keep the invariant. -/
theorem conserve_inv_fields (room r' : Room)
    (hp : r'.players = room.players) (hd : r'.deck = room.deck)
    (hres : r'.reserve = room.reserve) (hf : r'.field = room.field)
    (hinv : conserve_inv room) : conserve_inv r' := by
  unfold conserve_inv all_ids player_ids at hinv ⊢
  rw [hp, hd, hres, hf]
  exact hinv

theorem conserve_next_turn (room : Room) (hinv : conserve_inv room) :
    conserve_inv (next_turn room).1 := by
  obtain ⟨hp, hd, hres, hf, -⟩ := next_turn_fields room
  exact conserve_inv_fields room _ hp hd hres hf hinv

theorem conserve_try_end (room : Room) (hinv : conserve_inv room) :
    conserve_inv (try_end_game room).1 := by
  rcases try_end_game_shape room with h | ⟨w, -, h⟩ <;> rw [h] <;> exact hinv

/-- Core preservation argument: one player's hand is rewritten, deck and
reserve are rearranged, and hand-plus-containers is balanced as a multiset
(`played` leaves the hand for the containers, `gained` the other way). -/
theorem conserve_core (room r' : Room) (pid : Nat) (player : Player) (g : Player → Player)
    (played gained : List Card)
    (hgp : room.getPlayer pid = some player)
    (hinv : conserve_inv room)
    (hgid : ∀ p, (g p).id = p.id)
    (hp' : r'.players = room.players.map (fun p => if p.id = pid then g p else p))
    (hhand : ((g player).hand ++ played).Perm (player.hand ++ gained))
    (hDR : ((r'.deck ++ r'.reserve) ++ gained).Perm ((room.deck ++ room.reserve) ++ played))
    (hF : ∀ c ∈ r'.field, c ∈ r'.reserve) : conserve_inv r' := by
  obtain ⟨l₁, l₂, he, hm⟩ := modify_map_eq pid g room.players hinv.2.2 player hgp
  have h1 : ((hand_ids (g player) : List Nat) : Multiset Nat) + (card_ids played : List Nat)
      = ((hand_ids player : List Nat) : Multiset Nat) + (card_ids gained : List Nat) := by
    have h := Multiset.coe_eq_coe.mpr (hhand.map (fun c => c.card_id))
    rw [List.map_append, List.map_append] at h
    rw [Multiset.coe_add, Multiset.coe_add]
    exact h
  have h2 : (((card_ids r'.deck : List Nat) : Multiset Nat) + (card_ids r'.reserve : List Nat))
        + (card_ids gained : List Nat)
      = (((card_ids room.deck : List Nat) : Multiset Nat) + (card_ids room.reserve : List Nat))
        + (card_ids played : List Nat) := by
    have h := Multiset.coe_eq_coe.mpr (hDR.map (fun c => c.card_id))
    rw [List.map_append, List.map_append, List.map_append, List.map_append] at h
    rw [Multiset.coe_add, Multiset.coe_add, Multiset.coe_add, Multiset.coe_add]
    exact h
  refine conserve_of_le room r' hinv (le_of_eq ?_) ?_ hF
  · have key : ((all_ids r' : List Nat) : Multiset Nat)
          + ((card_ids played : List Nat) + (card_ids gained : List Nat))
        = ((all_ids room : List Nat) : Multiset Nat)
          + ((card_ids played : List Nat) + (card_ids gained : List Nat)) := by
      unfold all_ids
      rw [hp', hm, he, hands_ids_append, hands_ids_cons, hands_ids_append, hands_ids_cons]
      simp only [← Multiset.coe_add]
      calc ((hands_ids l₁ : List Nat) : Multiset Nat) + ((hand_ids (g player) : List Nat)
              + (hands_ids l₂ : List Nat)) + (card_ids r'.deck : List Nat)
              + (card_ids r'.reserve : List Nat)
              + ((card_ids played : List Nat) + (card_ids gained : List Nat))
          = ((hands_ids l₁ : List Nat) : Multiset Nat) + (hands_ids l₂ : List Nat)
              + (((hand_ids (g player) : List Nat) + (card_ids played : List Nat))
                + ((((card_ids r'.deck : List Nat) : Multiset Nat)
                    + (card_ids r'.reserve : List Nat)) + (card_ids gained : List Nat))) := by
            abel
        _ = ((hands_ids l₁ : List Nat) : Multiset Nat) + (hands_ids l₂ : List Nat)
              + (((hand_ids player : List Nat) + (card_ids gained : List Nat))
                + ((((card_ids room.deck : List Nat) : Multiset Nat)
                    + (card_ids room.reserve : List Nat)) + (card_ids played : List Nat))) := by
            rw [h1, h2]
        _ = ((hands_ids l₁ : List Nat) : Multiset Nat) + ((hand_ids player : List Nat)
              + (hands_ids l₂ : List Nat)) + (card_ids room.deck : List Nat)
              + (card_ids room.reserve : List Nat)
              + ((card_ids played : List Nat) + (card_ids gained : List Nat)) := by
            abel
    exact add_right_cancel key
  · have hpe : player_ids r' = player_ids room := by
      unfold player_ids
      rw [hp']
      exact map_modify_ids pid g hgid room.players
    rw [hpe]

theorem eraseDups_loop_nodup :
    ∀ (l acc : List Nat), (acc.reverse ++ l).Nodup →
      List.eraseDups.loop l acc = acc.reverse ++ l := by
  intro l
  induction l with
  | nil =>
    intro acc _
    simp [List.eraseDups.loop]
  | cons a l ih =>
    intro acc hnd
    have hmem : a ∉ acc := by
      intro hmem
      have hdisj := List.disjoint_of_nodup_append hnd
      exact hdisj (by simpa using hmem) (List.mem_cons_self a l)
    have hel : acc.elem a = false := by
      cases hel : acc.elem a with
      | false => rfl
      | true => exact absurd (List.mem_of_elem_eq_true hel) hmem
    have htail : ((a :: acc).reverse ++ l).Nodup := by
      rw [List.reverse_cons, List.append_assoc]
      exact hnd
    calc List.eraseDups.loop (a :: l) acc
        = List.eraseDups.loop l (a :: acc) := by
          simp only [List.eraseDups.loop, hel]
      _ = (a :: acc).reverse ++ l := ih (a :: acc) htail
      _ = acc.reverse ++ a :: l := by rw [List.reverse_cons, List.append_assoc]; rfl

theorem eraseDups_eq_self (l : List Nat) (h : l.Nodup) : l.eraseDups = l := by
  have := eraseDups_loop_nodup l [] (by simpa using h)
  simpa [List.eraseDups] using this

/-- With pairwise-distinct ids, filtering a list by a member's id keeps
exactly that member. -/
theorem filter_id_nodup :
    ∀ (cs : List Card), (card_ids cs).Nodup →
      ∀ c ∈ cs, cs.filter (fun q => q.card_id == c.card_id) = [c] := by
  intro cs
  induction cs with
  | nil => intro _ c hc; cases hc
  | cons a cs ih =>
    intro hnd c hc
    have hnd' : (∀ x ∈ cs, ¬ x.card_id = a.card_id) ∧ (card_ids cs).Nodup := by
      simpa [card_ids] using hnd
    rcases List.mem_cons.mp hc with rfl | hc
    · rw [List.filter_cons_of_pos (by simp)]
      have hnil : cs.filter (fun q => q.card_id == c.card_id) = [] := by
        rw [List.filter_eq_nil_iff]
        intro b hb
        simpa using fun he => hnd'.1 b hb he
      rw [hnil]
    · rw [List.filter_cons_of_neg (by simpa using fun he => hnd'.1 c hc he.symm)]
      exact ih hnd'.2 c hc

/-- With pairwise-distinct ids the by-id de-duplication is the identity. -/
theorem dedup_by_id_nodup (cs : List Card) (h : (card_ids cs).Nodup) :
    dedup_by_id cs = cs := by
  unfold dedup_by_id
  have he : (cs.map (fun c => c.card_id)).eraseDups = cs.map (fun c => c.card_id) :=
    eraseDups_eq_self _ (by simpa [card_ids] using h)
  rw [he, List.map_map]
  calc cs.map ((fun i => ((cs.filter (fun c => c.card_id == i)).getLast?).getD ⟨0, Suit.X, 0, true⟩)
        ∘ (fun c => c.card_id))
      = cs.map id := List.map_congr_left (fun c hc => by
        show ((cs.filter (fun q => q.card_id == c.card_id)).getLast?).getD ⟨0, Suit.X, 0, true⟩ = c
        rw [filter_id_nodup cs h c hc]
        rfl)
    _ = cs := List.map_id cs

/-- With pairwise-distinct ids nothing in the constructing cards collides
with the selected cards, so the `con_only` filter keeps everything. -/
theorem con_only_eq (sel con : List Card) (h : (card_ids (sel ++ con)).Nodup) :
    con.filter (fun c => ¬ (sel.map (fun c => c.card_id)).contains c.card_id) = con := by
  rw [List.filter_eq_self]
  intro c hc
  have hdisj : (card_ids sel).Disjoint (card_ids con) := by
    rw [card_ids_append] at h
    exact List.disjoint_of_nodup_append h
  have hni : c.card_id ∉ card_ids sel := fun hmem =>
    hdisj hmem (List.mem_map_of_mem _ hc)
  simpa [card_ids] using hni

/-- The flush-commit shape (`push → rewrite hand → flow → try_end_game`)
preserves the invariant. -/
theorem conserve_commit_flow (room : Room) (pid : Nat) (player : Player)
    (g : Player → Player) (played : List Card)
    (hgp : room.getPlayer pid = some player)
    (hgid : ∀ p, (g p).id = p.id)
    (hhand : ((g player).hand ++ played).Perm player.hand)
    (hinv : conserve_inv room) :
    conserve_inv (try_end_game
      { flow_field (Room.modifyPlayer (push_to_reserve room played) pid g) with
        has_drawn := false }).1 := by
  apply conserve_try_end
  refine conserve_core room _ pid player g played [] hgp hinv hgid ?_ ?_ ?_ ?_
  · rw [push_to_reserve_eq, flow_field_eq]
    rfl
  · rw [List.append_nil]
    exact hhand
  · rw [push_to_reserve_eq, flow_field_eq]
    show ((room.deck ++ (room.reserve ++ played)) ++ [] ++ []).Perm
      ((room.deck ++ room.reserve) ++ played)
    rw [List.append_nil, List.append_nil, List.append_assoc]
  · rw [push_to_reserve_eq, flow_field_eq]
    intro c hc
    exact absurd hc (List.not_mem_nil c)

/-- The ordinary commit shape (`push → rewrite hand → set field → pass the
turn`) preserves the invariant: the new field is inside the grown
reserve. -/
theorem conserve_commit_field (room : Room) (pid : Nat) (player : Player)
    (g : Player → Player) (played : List Card) (n : Int)
    (hgp : room.getPlayer pid = some player)
    (hgid : ∀ p, (g p).id = p.id)
    (hhand : ((g player).hand ++ played).Perm player.hand)
    (hinv : conserve_inv room) :
    conserve_inv (next_turn
      { Room.modifyPlayer (push_to_reserve room played) pid g with
        field := played, last_number := some n }).1 := by
  apply conserve_next_turn
  refine conserve_core room _ pid player g played [] hgp hinv hgid ?_ ?_ ?_ ?_
  · rw [push_to_reserve_eq]
    rfl
  · rw [List.append_nil]
    exact hhand
  · rw [push_to_reserve_eq]
    show ((room.deck ++ (room.reserve ++ played)) ++ []).Perm
      ((room.deck ++ room.reserve) ++ played)
    rw [List.append_nil, List.append_assoc]
  · rw [push_to_reserve_eq]
    intro c hc
    exact List.mem_append_right room.reserve hc

/-- The penalty path (`penalty_draw → flow_field → next_turn`) preserves
the invariant: the drawn prefix moves from the deck into the drawing
player's hand (or vanishes if the player left), and everything else is
only rearranged. -/
theorem conserve_penalty_flow (room : Room) (pid : Nat) (k : Nat)
    (hinv : conserve_inv room) :
    conserve_inv (next_turn (flow_field (penalty_draw pid k room))).1 := by
  apply conserve_next_turn
  rw [penalty_draw_spec, flow_field_eq]
  cases hgp : room.getPlayer pid with
  | some player =>
    refine conserve_core room _ pid player
      (fun p => { p with hand := (room.deck.take k).foldl add_card p.hand })
      [] (room.deck.take k) hgp hinv (fun p => rfl) ?_ ?_ ?_ ?_
    · show room.players.map (pd_update pid (room.deck.take k)) = _
      exact List.map_congr_left (fun p _ => rfl)
    · rw [List.append_nil]
      exact foldl_add_card_perm (room.deck.take k) player.hand
    · show (((room.deck.drop k ++ room.reserve) ++ []) ++ room.deck.take k).Perm
        ((room.deck ++ room.reserve) ++ [])
      rw [List.append_nil, List.append_nil]
      have h1 : ((room.deck.drop k ++ room.reserve) ++ room.deck.take k).Perm
          (room.deck.take k ++ (room.deck.drop k ++ room.reserve)) := List.perm_append_comm
      have h2 : room.deck.take k ++ (room.deck.drop k ++ room.reserve)
          = room.deck ++ room.reserve := by
        rw [← List.append_assoc, List.take_append_drop]
      rw [h2] at h1
      exact h1
    · intro c hc
      exact absurd hc (List.not_mem_nil c)
  | none =>
    refine conserve_containers room _ ?_ ?_ ?_ hinv
    · show room.players.map (pd_update pid (room.deck.take k)) = room.players
      calc room.players.map (pd_update pid (room.deck.take k))
          = room.players.map (fun p => if p.id = pid then
              { p with hand := (room.deck.take k).foldl add_card p.hand } else p) :=
            List.map_congr_left (fun p _ => rfl)
        _ = room.players := modify_map_none pid _ room.players hgp
    · show ((card_ids (room.deck.drop k ++ room.reserve) : List Nat) : Multiset Nat)
          + ((card_ids ([] : List Card) : List Nat) : Multiset Nat)
        ≤ ((card_ids room.deck : List Nat) : Multiset Nat)
          + ((card_ids room.reserve : List Nat) : Multiset Nat)
      rw [card_ids_append, show card_ids ([] : List Card) = [] from rfl, Multiset.coe_nil,
        add_zero, ← Multiset.coe_add]
      refine add_le_add_right ?_ _
      rw [Multiset.coe_le]
      exact ((List.drop_sublist k room.deck).map _).subperm
    · intro c hc
      exact absurd hc (List.not_mem_nil c)

/-- `flow_field` then `next_turn` (the pass action's body) preserves the
invariant. -/
theorem conserve_flow_next (room : Room) (hinv : conserve_inv room) :
    conserve_inv (next_turn (flow_field room)).1 := by
  apply conserve_next_turn
  rw [flow_field_eq]
  refine conserve_containers room _ rfl ?_ ?_ hinv
  · show ((card_ids (room.deck ++ room.reserve) : List Nat) : Multiset Nat)
        + ((card_ids ([] : List Card) : List Nat) : Multiset Nat)
      ≤ ((card_ids room.deck : List Nat) : Multiset Nat)
        + ((card_ids room.reserve : List Nat) : Multiset Nat)
    rw [card_ids_append, show card_ids ([] : List Card) = [] from rfl, Multiset.coe_nil,
      add_zero, ← Multiset.coe_add]
  · intro c hc
    exact absurd hc (List.not_mem_nil c)

theorem conserve_draw (room : Room) (pid : Nat) (hinv : conserve_inv room) :
    conserve_inv (draw_card room pid).room := by
  unfold draw_card
  by_cases h1 : room.current_turn_id ≠ some pid
  · rw [if_pos h1]; exact hinv
  · rw [if_neg h1]
    by_cases h2 : room.has_drawn
    · rw [if_pos h2]; exact hinv
    · rw [if_neg h2]
      cases hdk : room.deck with
      | nil => exact hinv
      | cons drawn rest =>
        dsimp only
        cases hgp : room.getPlayer pid with
        | some player =>
          refine conserve_core room _ pid player
            (fun p => { p with hand := add_card p.hand drawn }) [] [drawn]
            hgp hinv (fun p => rfl) ?_ ?_ ?_ ?_
          · rfl
          · rw [List.append_nil]
            exact (add_card_perm player.hand drawn).trans
              (List.perm_append_singleton drawn player.hand).symm
          · show ((rest ++ room.reserve) ++ [drawn]).Perm ((room.deck ++ room.reserve) ++ [])
            rw [List.append_nil, hdk]
            exact List.perm_append_comm
          · intro c hc
            exact hinv.2.1 c hc
        | none =>
          refine conserve_containers room _ ?_ ?_ ?_ hinv
          · show room.players.map _ = room.players
            exact modify_map_none pid _ room.players hgp
          · show ((card_ids rest : List Nat) : Multiset Nat)
                + ((card_ids room.reserve : List Nat) : Multiset Nat)
              ≤ ((card_ids room.deck : List Nat) : Multiset Nat)
                + ((card_ids room.reserve : List Nat) : Multiset Nat)
            refine add_le_add_right ?_ _
            rw [hdk, Multiset.coe_le]
            exact ((List.sublist_cons_self drawn rest).map _).subperm
          · intro c hc
            exact hinv.2.1 c hc

theorem conserve_pass (room : Room) (pid : Nat) (hinv : conserve_inv room) :
    conserve_inv (pass_action room pid).room := by
  unfold pass_action
  by_cases h1 : room.current_turn_id ≠ some pid
  · rw [if_pos h1]; exact hinv
  · rw [if_neg h1]
    dsimp only
    exact conserve_flow_next room hinv

theorem conserve_leave (room : Room) (pid : Nat) (hinv : conserve_inv room) :
    conserve_inv (leave_room room pid).1 := by
  unfold leave_room
  cases hgp : room.getPlayer pid with
  | none => exact hinv
  | some q =>
    dsimp only
    have hsub : (room.players.eraseP (fun p => p.id == pid)).Sublist room.players :=
      List.eraseP_sublist room.players
    have hinv1 : conserve_inv
        { room with players := room.players.eraseP (fun p => p.id == pid) } := by
      refine conserve_of_le room _ hinv ?_ ?_ ?_
      · unfold all_ids
        simp only [← Multiset.coe_add]
        refine add_le_add_right (add_le_add_right ?_ _) _
        rw [Multiset.coe_le]
        exact (flatten_sublist (hsub.map hand_ids)).subperm
      · unfold player_ids
        exact hsub.map _
      · intro c hc
        exact hinv.2.1 c hc
    split
    · split
      · exact hinv1
      · split
        · exact conserve_next_turn _ hinv1
        · exact hinv1
    · exact hinv1

theorem conserve_stage3 (rnd : List Nat) (room : Room) (pid : Nat)
    (played : List Card) (number : Int) (player : Player)
    (hgp : room.getPlayer pid = some player)
    (hhc : has_cards player.hand played = true)
    (hinv : conserve_inv room) :
    conserve_inv (prime_play_stage3 rnd room pid played number).room := by
  have hhand : ((remove_cards_list player.hand played) ++ played).Perm player.hand :=
    List.perm_append_comm.trans (has_cards_perm played player.hand hhc).symm
  unfold prime_play_stage3
  by_cases h57 : number = 57
  · rw [if_pos h57]
    dsimp only
    exact conserve_commit_flow room pid player _ played hgp (fun p => rfl) hhand hinv
  · rw [if_neg h57]
    by_cases h1729 : number = 1729
    · rw [if_pos h1729]
      dsimp only
      exact conserve_commit_field { room with reverse_order := !room.reverse_order }
        pid player _ played number hgp (fun p => rfl) hhand hinv
    · rw [if_neg h1729]
      by_cases hpr : is_prime_int rnd number
      · rw [if_neg (by simpa using hpr)]
        dsimp only
        exact conserve_commit_field room pid player _ played number hgp (fun p => rfl)
          hhand hinv
      · rw [if_pos (by simpa using hpr)]
        dsimp only
        exact conserve_penalty_flow room pid _ hinv

theorem conserve_stage2 (rnd : List Nat) (room : Room) (pid : Nat)
    (played : List Card) (number : Int) (player : Player)
    (hgp : room.getPlayer pid = some player)
    (hhc : has_cards player.hand played = true)
    (hinv : conserve_inv room) :
    conserve_inv (prime_play_stage2 rnd room pid played number).room := by
  unfold prime_play_stage2
  by_cases hf : room.field.isEmpty
  · rw [if_pos hf]
    exact conserve_stage3 rnd room pid played number player hgp hhc hinv
  · rw [if_neg hf]
    by_cases hlen : played.length ≠ room.field.length
    · rw [if_pos hlen]
      exact hinv
    · rw [if_neg hlen]
      dsimp only
      split
      · exact hinv
      · split
        · exact hinv
        · exact conserve_stage3 rnd room pid played number player hgp hhc hinv

theorem conserve_prime (rnd : List Nat) (room : Room) (pid : Nat) (d : PrimePlayData)
    (hinv : conserve_inv room) :
    conserve_inv (play_card_prime rnd room pid d).room := by
  unfold play_card_prime
  by_cases hg : room.current_turn_id ≠ some pid
  · rw [if_pos hg]; exact hinv
  · rw [if_neg hg]
    unfold handle_prime_play
    cases hgp : room.getPlayer pid with
    | none => exact hinv
    | some player =>
      dsimp only
      by_cases hhc : has_cards player.hand d.cards = true
      · rw [if_neg (by simpa using hhc)]
        split
        · -- single-joker flush branch
          rename_i j x hfil hpl
          have hjp : j ∈ d.cards := by
            have : j ∈ d.cards.filter (fun c => c.suit == Suit.X) := by
              rw [hfil]; exact List.mem_cons_self j []
            exact List.mem_of_mem_filter this
          have hjh : j ∈ player.hand := has_cards_mem d.cards player.hand hhc j hjp
          have hxj : x = j := by
            rw [hpl] at hjp
            exact (List.mem_singleton.mp hjp).symm
          have hhand : ((player.hand.erase j) ++ d.cards).Perm player.hand := by
            rw [hpl, hxj]
            exact (List.perm_append_singleton j _).trans (List.perm_cons_erase hjh).symm
          exact conserve_commit_flow room pid player
            (fun p => { p with hand := p.hand.erase j }) d.cards hgp (fun p => rfl)
            hhand hinv
        · by_cases hjl : (d.cards.filter (fun c => c.suit == Suit.X)).length ≠ 0
          · rw [if_pos hjl]
            by_cases ha : d.assigned_numbers.length
                ≠ (d.cards.filter (fun c => c.suit == Suit.X)).length
            · rw [if_pos ha]; exact hinv
            · rw [if_neg ha]
              by_cases hinf : Assigned.inf ∈ d.assigned_numbers
              · rw [if_pos hinf]; exact hinv
              · rw [if_neg hinf]
                by_cases hz : ((subst_ranks d.cards d.assigned_numbers).flatten).head? = some 0
                · rw [if_pos hz]; exact hinv
                · rw [if_neg hz]
                  exact conserve_stage2 rnd room pid d.cards _ player hgp hhc hinv
          · rw [if_neg hjl]
            exact conserve_stage2 rnd room pid d.cards _ player hgp hhc hinv
      · rw [if_pos (by simpa using hhc)]
        exact hinv

theorem conserve_math_penalty (room : Room) (pid : Nat) (sel : List Card) (n : Int)
    (hinv : conserve_inv room) :
    conserve_inv (composite_math_penalty room pid sel n).room := by
  unfold composite_math_penalty
  dsimp only
  exact conserve_penalty_flow room pid _ hinv

theorem conserve_comp (rnd : List Nat) (room : Room) (pid : Nat) (d : CompositeData)
    (hids : (card_ids (d.sel_cards ++ d.con_cards)).Nodup)
    (hinv : conserve_inv room) :
    conserve_inv (play_card_comp rnd room pid d).room := by
  unfold play_card_comp
  by_cases hg : room.current_turn_id ≠ some pid
  · rw [if_pos hg]; exact hinv
  · rw [if_neg hg]
    unfold handle_composite_play
    cases hgp : room.getPlayer pid with
    | none => exact hinv
    | some player =>
      dsimp only
      rw [dedup_by_id_nodup (d.sel_cards ++ d.con_cards) hids]
      by_cases hhc : has_cards player.hand (d.sel_cards ++ d.con_cards) = true
      · rw [if_neg (by simpa using hhc)]
        cases hmj : map_joker_values_in_cards d.sel_cards d.sel_assigned false with
        | error e => exact hinv
        | ok sel_ranks =>
          dsimp only
          split
          · exact hinv
          · split
            · exact hinv
            · rename_i tcr hbt
              by_cases hfl : ¬ room.field.isEmpty = true
                  ∧ d.sel_cards.length ≠ room.field.length
              · rw [if_pos hfl]; exact hinv
              · rw [if_neg hfl]
                by_cases hz : ((sel_ranks.map jval_digits).flatten).head? = some 0
                · rw [if_pos hz]; exact hinv
                · rw [if_neg hz]
                  by_cases hfg : ¬ room.field.isEmpty = true
                      ∧ ((!room.reverse_order) = true
                          ∧ digits_number (sel_ranks.map jval_digits).flatten
                            ≤ room.last_number.getD (-1)
                        ∨ room.reverse_order = true
                          ∧ digits_number (sel_ranks.map jval_digits).flatten
                            ≥ room.last_number.getD (-1))
                  · rw [if_pos hfg]; exact hinv
                  · rw [if_neg hfg]
                    split
                    · exact hinv
                    · exact hinv
                    · exact conserve_math_penalty room pid d.sel_cards _ hinv
                    · rename_i number cids hpe
                      by_cases hne : (number : Int)
                          ≠ digits_number (sel_ranks.map jval_digits).flatten
                      · rw [if_pos hne]
                        exact conserve_math_penalty room pid d.sel_cards _ hinv
                      · rw [if_neg hne]
                        dsimp only
                        rw [con_only_eq d.sel_cards d.con_cards hids]
                        apply conserve_next_turn
                        refine conserve_core room _ pid player
                          (fun p => { p with
                            hand := remove_cards_list p.hand (d.sel_cards ++ d.con_cards) })
                          (d.sel_cards ++ d.con_cards) [] hgp hinv (fun p => rfl)
                          ?_ ?_ ?_ ?_
                        · rw [push_to_reserve_eq, return_cards_to_deck_bottom_eq]
                          rfl
                        · rw [List.append_nil]
                          exact List.perm_append_comm.trans
                            (has_cards_perm (d.sel_cards ++ d.con_cards) player.hand hhc).symm
                        · rw [push_to_reserve_eq, return_cards_to_deck_bottom_eq]
                          show (((room.deck ++ d.con_cards) ++ (room.reserve ++ d.sel_cards))
                              ++ []).Perm
                            ((room.deck ++ room.reserve) ++ (d.sel_cards ++ d.con_cards))
                          rw [List.append_nil]
                          refine Multiset.coe_eq_coe.mp ?_
                          simp only [← Multiset.coe_add]
                          abel
                        · rw [push_to_reserve_eq, return_cards_to_deck_bottom_eq]
                          intro c hc
                          exact List.mem_append_right room.reserve hc
      · rw [if_pos (by simpa using hhc)]
        exact hinv

/-- The two dealt hands and the remaining pile are together a permutation
of the dealt deck. -/
theorem deal2_perm : ∀ (n : Nat) (d : List Card),
    ((((deal2 n d).1.1 ++ (deal2 n d).1.2) ++ (deal2 n d).2)).Perm d := by
  intro n
  induction n with
  | zero => intro d; simp [deal2]
  | succ n ih =>
    intro d
    cases d with
    | nil => simp [deal2]
    | cons a d' =>
      cases d' with
      | nil => simp [deal2]
      | cons b rest =>
        have h1 : ((deal2 n rest).1.1 ++ b :: (deal2 n rest).1.2).Perm
            (b :: ((deal2 n rest).1.1 ++ (deal2 n rest).1.2)) := List.perm_middle
        have h2 := (h1.append_right (deal2 n rest).2).trans ((ih rest).cons b)
        exact h2.cons a

theorem subperm_map (f : Card → Nat) {l₁ l₂ : List Card} (h : l₁.Subperm l₂) :
    (l₁.map f).Subperm (l₂.map f) := by
  obtain ⟨m, pm, sub⟩ := h
  exact ⟨m.map f, pm.map f, sub.map f⟩

/-- The fresh deck's ids are the base ids shifted by `fresh`. -/
theorem base_deck_ids (fresh : Nat) :
    card_ids (base_deck fresh) = (card_ids (base_deck 0)).map (fun i => fresh + i) := by
  unfold card_ids base_deck suit_cards
  simp only [List.map_append, List.map_map, List.map_cons, List.map_nil, Function.comp_def,
    Nat.zero_add, Nat.add_assoc]

theorem base_deck_ids_nodup (fresh : Nat) : (card_ids (base_deck fresh)).Nodup := by
  rw [base_deck_ids]
  exact List.Nodup.map (fun a b h => by omega) (by decide)

theorem base_deck_ids_ge (fresh : Nat) :
    ∀ i ∈ card_ids (base_deck fresh), fresh ≤ i := by
  rw [base_deck_ids]
  intro i hi
  obtain ⟨j, -, rfl⟩ := List.mem_map.mp hi
  omega

/-- Whatever the deck rule, the built deck is a sub-permutation of the 54
freshly minted cards. -/
theorem build_deck_subperm (fresh : Nat) (sh1 sh2 : List Card → List Card)
    (h1 : ∀ l, (sh1 l).Perm l) (h2 : ∀ l, (sh2 l).Perm l) (rule : RulePreset) :
    (build_deck fresh sh1 sh2 rule).Subperm (base_deck fresh) := by
  unfold build_deck generate_deck
  dsimp only
  by_cases hr : rule.deck_rule = DeckRule.EVEN_HALVED
  · rw [if_pos hr]
    exact ((h2 _).trans ((h1 (base_deck fresh)).filter _)).subperm.trans
      (List.filter_sublist (base_deck fresh)).subperm
  · rw [if_neg hr]
    exact ((h2 _).trans (h1 _)).subperm

/-- One `modifyPlayer` map, at the multiset level: the target's hand ids
are swapped for the new hand's ids. -/
theorem hands_ids_modify_ms (pid : Nat) (g : Player → Player) (l : List Player)
    (hnd : (l.map (fun p => p.id)).Nodup) (player : Player)
    (hf : l.find? (fun p => p.id == pid) = some player) :
    ((hands_ids (l.map (fun p => if p.id = pid then g p else p)) : List Nat) : Multiset Nat)
        + ((hand_ids player : List Nat) : Multiset Nat)
      = ((hands_ids l : List Nat) : Multiset Nat)
        + ((hand_ids (g player) : List Nat) : Multiset Nat) := by
  obtain ⟨l₁, l₂, he, hm⟩ := modify_map_eq pid g l hnd player hf
  rw [hm, he, hands_ids_append, hands_ids_cons, hands_ids_append, hands_ids_cons]
  simp only [← Multiset.coe_add]
  abel

/-- Core invariant preservation for `start_game`'s dealing: the two hands
are rebuilt from freshly minted ids lying above every tracked id, the deck
becomes the rest of the mint, field and reserve are cleared. -/
theorem conserve_start_core (fresh : Nat) (room : Room) (p1 p2 : Player)
    (A B C : List Card) (ct : Option Nat)
    (hinv : conserve_inv room)
    (hmem1 : p1 ∈ room.players) (hmem2 : p2 ∈ room.players) (hne12 : p1.id ≠ p2.id)
    (hnew : ((card_ids A : List Nat) : Multiset Nat) + ((card_ids B : List Nat) : Multiset Nat)
        + ((card_ids C : List Nat) : Multiset Nat)
      ≤ ((card_ids (base_deck fresh) : List Nat) : Multiset Nat))
    (hfresh : ∀ i ∈ all_ids room, i < fresh) :
    conserve_inv
      { Room.modifyPlayer (Room.modifyPlayer
          { room with reverse_order := false, has_drawn := false }
          p1.id (fun p => { p with hand := sort_hand A })) p2.id
          (fun p => { p with hand := sort_hand B }) with
        deck := C, reserve := [], field := [], last_number := none,
        state := RState.playing, current_turn_id := ct } := by
  have hpd := hinv.2.2
  have hf1 : room.players.find? (fun q => q.id == p1.id) = some p1 :=
    find_id_of_mem room.players hpd p1 hmem1
  have hidsM1 : ((room.players.map (fun p => if p.id = p1.id then
        { p with hand := sort_hand A } else p)).map (fun p => p.id))
      = room.players.map (fun p => p.id) :=
    map_modify_ids p1.id (fun p => { p with hand := sort_hand A }) (fun p => rfl)
      room.players
  have hndM1 : ((room.players.map (fun p => if p.id = p1.id then
        { p with hand := sort_hand A } else p)).map (fun p => p.id)).Nodup := by
    rw [hidsM1]
    exact hpd
  have hmem2M1 : p2 ∈ room.players.map (fun p => if p.id = p1.id then
      { p with hand := sort_hand A } else p) := by
    refine List.mem_map.mpr ⟨p2, hmem2, ?_⟩
    have hne : ¬ p2.id = p1.id := fun hh => hne12 hh.symm
    simp [hne]
  have hf2 : (room.players.map (fun p => if p.id = p1.id then
      { p with hand := sort_hand A } else p)).find? (fun q => q.id == p2.id) = some p2 :=
    find_id_of_mem _ hndM1 p2 hmem2M1
  have hM1 := hands_ids_modify_ms p1.id (fun p => { p with hand := sort_hand A })
    room.players hpd p1 hf1
  have hM2 := hands_ids_modify_ms p2.id (fun p => { p with hand := sort_hand B })
    _ hndM1 p2 hf2
  have hsA : ((hand_ids { p1 with hand := sort_hand A } : List Nat) : Multiset Nat)
      = ((card_ids A : List Nat) : Multiset Nat) :=
    Multiset.coe_eq_coe.mpr ((sort_hand_perm A).map _)
  have hsB : ((hand_ids { p2 with hand := sort_hand B } : List Nat) : Multiset Nat)
      = ((card_ids B : List Nat) : Multiset Nat) :=
    Multiset.coe_eq_coe.mpr ((sort_hand_perm B).map _)
  refine ⟨?_, ?_, ?_⟩
  · show ((hands_ids ((room.players.map (fun p => if p.id = p1.id then
        { p with hand := sort_hand A } else p)).map (fun p => if p.id = p2.id then
        { p with hand := sort_hand B } else p)) ++ card_ids C)
      ++ card_ids ([] : List Card)).Nodup
    rw [show card_ids ([] : List Card) = [] from rfl, List.append_nil]
    refine Multiset.coe_nodup.mp ?_
    simp only [← Multiset.coe_add]
    have key : ((hands_ids ((room.players.map (fun p => if p.id = p1.id then
            { p with hand := sort_hand A } else p)).map (fun p => if p.id = p2.id then
            { p with hand := sort_hand B } else p)) : List Nat) : Multiset Nat)
          + ((card_ids C : List Nat) : Multiset Nat)
          + (((hand_ids p1 : List Nat) : Multiset Nat)
            + ((hand_ids p2 : List Nat) : Multiset Nat))
        = ((hands_ids room.players : List Nat) : Multiset Nat)
          + (((card_ids A : List Nat) : Multiset Nat)
            + ((card_ids B : List Nat) : Multiset Nat)
            + ((card_ids C : List Nat) : Multiset Nat)) := by
      calc ((hands_ids ((room.players.map (fun p => if p.id = p1.id then
              { p with hand := sort_hand A } else p)).map (fun p => if p.id = p2.id then
              { p with hand := sort_hand B } else p)) : List Nat) : Multiset Nat)
            + ((card_ids C : List Nat) : Multiset Nat)
            + (((hand_ids p1 : List Nat) : Multiset Nat)
              + ((hand_ids p2 : List Nat) : Multiset Nat))
          = ((hands_ids ((room.players.map (fun p => if p.id = p1.id then
              { p with hand := sort_hand A } else p)).map (fun p => if p.id = p2.id then
              { p with hand := sort_hand B } else p)) : List Nat) : Multiset Nat)
              + ((hand_ids p2 : List Nat) : Multiset Nat)
              + (((hand_ids p1 : List Nat) : Multiset Nat)
                + ((card_ids C : List Nat) : Multiset Nat)) := by abel
        _ = ((hands_ids (room.players.map (fun p => if p.id = p1.id then
              { p with hand := sort_hand A } else p)) : List Nat) : Multiset Nat)
              + ((hand_ids { p2 with hand := sort_hand B } : List Nat) : Multiset Nat)
              + (((hand_ids p1 : List Nat) : Multiset Nat)
                + ((card_ids C : List Nat) : Multiset Nat)) := by rw [hM2]
        _ = ((hands_ids (room.players.map (fun p => if p.id = p1.id then
              { p with hand := sort_hand A } else p)) : List Nat) : Multiset Nat)
              + ((hand_ids p1 : List Nat) : Multiset Nat)
              + (((hand_ids { p2 with hand := sort_hand B } : List Nat) : Multiset Nat)
                + ((card_ids C : List Nat) : Multiset Nat)) := by abel
        _ = ((hands_ids room.players : List Nat) : Multiset Nat)
              + ((hand_ids { p1 with hand := sort_hand A } : List Nat) : Multiset Nat)
              + (((hand_ids { p2 with hand := sort_hand B } : List Nat) : Multiset Nat)
                + ((card_ids C : List Nat) : Multiset Nat)) := by rw [hM1]
        _ = ((hands_ids room.players : List Nat) : Multiset Nat)
              + (((card_ids A : List Nat) : Multiset Nat)
                + ((card_ids B : List Nat) : Multiset Nat)
                + ((card_ids C : List Nat) : Multiset Nat)) := by
              rw [hsA, hsB]
              abel
    have hnodupR : Multiset.Nodup (((hands_ids room.players : List Nat) : Multiset Nat)
        + (((card_ids A : List Nat) : Multiset Nat)
          + ((card_ids B : List Nat) : Multiset Nat)
          + ((card_ids C : List Nat) : Multiset Nat))) := by
      rw [Multiset.nodup_add]
      refine ⟨?_, ?_, ?_⟩
      · rw [Multiset.coe_nodup]
        refine List.Nodup.sublist ?_ hinv.1
        exact (List.sublist_append_left _ _).trans (List.sublist_append_left _ _)
      · exact Multiset.nodup_of_le hnew
          (by rw [Multiset.coe_nodup]; exact base_deck_ids_nodup fresh)
      · rw [Multiset.disjoint_left]
        intro a haH haNew
        have hlt : a < fresh := hfresh a
          (List.mem_append_left _ (List.mem_append_left _ (Multiset.mem_coe.mp haH)))
        have hge : fresh ≤ a := base_deck_ids_ge fresh a
          (Multiset.mem_coe.mp (Multiset.mem_of_le hnew haNew))
        omega
    have hnodupL : Multiset.Nodup (((hands_ids ((room.players.map (fun p =>
          if p.id = p1.id then { p with hand := sort_hand A } else p)).map (fun p =>
          if p.id = p2.id then { p with hand := sort_hand B } else p)) : List Nat) : Multiset Nat)
        + ((card_ids C : List Nat) : Multiset Nat)
        + (((hand_ids p1 : List Nat) : Multiset Nat)
          + ((hand_ids p2 : List Nat) : Multiset Nat))) := by
      rw [key]
      exact hnodupR
    exact Multiset.nodup_of_le (Multiset.le_add_right _ _) hnodupL
  · intro c hc
    exact absurd hc (List.not_mem_nil c)
  · show (((room.players.map (fun p => if p.id = p1.id then
        { p with hand := sort_hand A } else p)).map (fun p => if p.id = p2.id then
        { p with hand := sort_hand B } else p)).map (fun p => p.id)).Nodup
    rw [map_modify_ids p2.id (fun p => { p with hand := sort_hand B }) (fun p => rfl),
      hidsM1]
    exact hpd

theorem conserve_start (fresh : Nat) (sh1 sh2 sh3 : List Card → List Card) (coin : Bool)
    (room : Room)
    (h1 : ∀ l, (sh1 l).Perm l) (h2 : ∀ l, (sh2 l).Perm l) (h3 : ∀ l, (sh3 l).Perm l)
    (hfresh : ∀ i ∈ all_ids room, i < fresh)
    (hinv : conserve_inv room) :
    conserve_inv (start_game_endpoint fresh sh1 sh2 sh3 coin room).room := by
  unfold start_game_endpoint
  by_cases hgd : (room.players.filter (fun p => p.status == PStatus.waiting)).length ≠ 2
  · rw [if_pos hgd]; exact hinv
  · rw [if_neg hgd]
    show conserve_inv (start_game fresh sh1 sh2 sh3 coin room)
    unfold start_game
    dsimp only
    split
    · rename_i p1 p2 hflt
      have hflt2 : room.players.filter (fun p => p.status == PStatus.waiting) = [p1, p2] := hflt
      have hsub2 : List.Sublist [p1, p2] room.players := by
        rw [← hflt2]
        exact List.filter_sublist room.players
      have hmem1 : p1 ∈ room.players := hsub2.subset (by simp)
      have hmem2 : p2 ∈ room.players := hsub2.subset (by simp)
      have hne12 : p1.id ≠ p2.id := by
        have hnd2 : ([p1, p2].map (fun p => p.id)).Nodup :=
          List.Nodup.sublist (hsub2.map (fun p => p.id))
            (show (room.players.map (fun p => p.id)).Nodup from hinv.2.2)
        simpa using hnd2
      refine conserve_start_core fresh room p1 p2 _ _ _ _ hinv hmem1 hmem2 hne12 ?_ hfresh
      have hsp := build_deck_subperm fresh sh1 sh2 h1 h2
        ({ room with reverse_order := false, has_drawn := false } : Room).rule
      have hms : ((card_ids ((((shuffle_and_deal sh3 (build_deck fresh sh1 sh2
            ({ room with reverse_order := false, has_drawn := false } : Room).rule)
            ({ room with reverse_order := false, has_drawn := false } : Room).rule.hand_size).1.1
          ++ (shuffle_and_deal sh3 (build_deck fresh sh1 sh2
            ({ room with reverse_order := false, has_drawn := false } : Room).rule)
            ({ room with reverse_order := false, has_drawn := false } : Room).rule.hand_size).1.2)
          ++ (shuffle_and_deal sh3 (build_deck fresh sh1 sh2
            ({ room with reverse_order := false, has_drawn := false } : Room).rule)
            ({ room with reverse_order := false, has_drawn := false } : Room).rule.hand_size).2))
          : List Nat) : Multiset Nat)
          ≤ ((card_ids (base_deck fresh) : List Nat) : Multiset Nat) := by
        rw [Multiset.coe_le]
        refine (List.Perm.subperm (List.Perm.map _
          ((deal2_perm _ _).trans (h3 _)))).trans (subperm_map _ hsp)
      rw [card_ids_append, card_ids_append] at hms
      simp only [← Multiset.coe_add] at hms
      exact hms
    · exact hinv

theorem step_preserves {r r' : Room} (hs : Step r r') (hinv : conserve_inv r) :
    conserve_inv r' := by
  cases hs with
  | start fresh sh1 sh2 sh3 coin room h1 h2 h3 hfresh =>
    exact conserve_start fresh sh1 sh2 sh3 coin r h1 h2 h3 hfresh hinv
  | prime rnd pid d room => exact conserve_prime rnd r pid d hinv
  | comp rnd pid d room hids => exact conserve_comp rnd r pid d hids hinv
  | draw pid room => exact conserve_draw r pid hinv
  | pass_a pid room => exact conserve_pass r pid hinv
  | leave pid room => exact conserve_leave r pid hinv

theorem hands_ids_of_empty :
    ∀ (l : List Player), (∀ p ∈ l, p.hand = []) → hands_ids l = [] := by
  intro l
  induction l with
  | nil => intro _; rfl
  | cons p l ih =>
    intro hl
    rw [hands_ids_cons, ih (fun q hq => hl q (List.mem_cons_of_mem p hq))]
    unfold hand_ids
    rw [hl p (List.mem_cons_self p l)]
    rfl

theorem init_conserve (room : Room) (h : init_ok room) : conserve_inv room := by
  obtain ⟨hd, hf, hr, hh, hp⟩ := h
  refine ⟨?_, ?_, hp⟩
  · unfold all_ids
    rw [hd, hr, hands_ids_of_empty room.players hh]
    simp [card_ids]
  · rw [hf]
    intro c hc
    exact absurd hc (List.not_mem_nil c)

/-- C1 (amended): card conservation.  In every room reachable from a fresh
room by the duel actions (with composite plays consuming cards of pairwise
distinct ids), every card id appears at most once across all hands, the
deck and the reserve together; the field is not a separate owner but a
list of copies of cards simultaneously held by the reserve; and player ids
stay pairwise distinct.  (The original claim - each id in exactly one of
hand/deck/field/reserve - fails: see `C1_counterexample`.) -/
theorem C1_card_conservation (room : Room) (h : Reachable room) :
    (all_ids room).Nodup ∧ (∀ c ∈ room.field, c ∈ room.reserve)
      ∧ (player_ids room).Nodup := by
  induction h with
  | init r hi => exact init_conserve r hi
  | step r r' hr hs ih => exact step_preserves hs ih

/-- C1 witness: the conservation theorem applied to the concrete fresh
two-player room. -/
theorem C1_witness :
    (all_ids cex_room0).Nodup ∧ (∀ c ∈ cex_room0.field, c ∈ cex_room0.reserve)
      ∧ (player_ids cex_room0).Nodup :=
  C1_card_conservation cex_room0
    (Reachable.init cex_room0 (by unfold init_ok player_ids; decide))

/-- C1 counterexample: after `start_game` and one successful prime play of
`cS3`, the room is reachable yet stores the very same card in `field` and
in `reserve` at the same instant - a card id is present in two of the four
containers, refuting the claim's "exactly one" for every reachable
state. -/
theorem C1_counterexample :
    Reachable cex_room2 ∧ cS3 ∈ cex_room2.field ∧ cS3 ∈ cex_room2.reserve := by
  refine ⟨?_, by decide, by decide⟩
  refine Reachable.step cex_room1 cex_room2 (Reachable.step cex_room0 cex_room1
    (Reachable.init cex_room0 (by unfold init_ok player_ids; decide)) ?_) ?_
  · exact Step.start 0 id id id true cex_room0 (fun l => List.Perm.refl l)
      (fun l => List.Perm.refl l) (fun l => List.Perm.refl l) (by decide)
  · exact Step.prime [] 1 ⟨[cS3], []⟩ cex_room1

end PrimeQK
